import Mathlib

/-!
Verification development for the EWS proxy's bidirectional SOAP/XML ↔ WCF-JSON
translation engine (files soap2json.go, json2soap.go, ews_types.go of
virtuald/ews-proxy).

The embedding follows the Go source closely:

* JSON values are modelled by `Json`; Go's `json.Number` (decoding with
  `UseNumber`) is the `Json.num` constructor carrying the lexical digits,
  and the `int` produced by enum conversion is `Json.int`.
* Ordered JSON objects (`OrderedObject` in soap2json.go) are association
  lists with the insert-or-overwrite-in-place `oset` operation.
* The XML pull parser is modelled as a list of tokens (`Tok`); the XML
  encoder output is a list of events (`XmlEvt`).
* Go errors are `Fail.err`, Go runtime panics are `Fail.crash`, and the
  recursion fuel used to embed the streaming loops exhausts to `Fail.fuel`
  (a fuel value at least the token count is always sufficient).
* The type registry (built by ews_data.go at startup, consumed read-only)
  is a name-indexed list of `EwsType` records; cross references are stored
  by name and resolved through the registry exactly where the Go code
  follows a pointer that was resolved at initialization time.
-/

namespace Ews

/-- JSON values as the Go code sees them: `num` is `json.Number` (lexical
digits preserved, decoder runs with `UseNumber`), `int` is a Go `int`
(produced by enum conversion in XML→JSON), `obj` is an ordered object. -/
inductive Json where
  | bool (b : Bool)
  | num (s : String)
  | str (s : String)
  | int (n : Nat)
  | null
  | obj (members : List (String × Json))
  | arr (items : List Json)
  deriving Repr

/-- Ordered JSON object: `json.OrderedObject` is a slice of key/value
members; the wrapper `OrderedObject` in soap2json.go adds a key index so
`Set` overwrites in place. -/
abbrev OrderedObj := List (String × Json)

/-- OrderedObject.Get from soap2json.go. -/
def oget (o : OrderedObj) (k : String) : Option Json :=
  match o with
  | [] => none
  | (k', v) :: rest => if k' = k then some v else oget rest k

/-- OrderedObject.Set from soap2json.go: overwrite in place when the key is
already present, append otherwise. -/
def oset (o : OrderedObj) (k : String) (v : Json) : OrderedObj :=
  match o with
  | [] => [(k, v)]
  | (k', v') :: rest => if k' = k then (k, v) :: rest else (k', v') :: oset rest k v

/-- OrderedObject.Set's return value: true when a new entry was added. -/
def osetAdded (o : OrderedObj) (k : String) : Bool :=
  match o with
  | [] => true
  | (k', _) :: rest => if k' = k then false else osetAdded rest k

/-- Unordered Go map `map[string]interface{}` as decoded JSON, modelled as
an association list with unique keys. -/
abbrev JsonMap := List (String × Json)

/-- Map lookup `m[k]`. -/
def mget (m : JsonMap) (k : String) : Option Json :=
  match m with
  | [] => none
  | (k', v) :: rest => if k' = k then some v else mget rest k

/-- Go `delete(m, k)`. -/
def mdel (m : JsonMap) (k : String) : JsonMap :=
  match m with
  | [] => []
  | (k', v) :: rest => if k' = k then mdel rest k else (k', v) :: mdel rest k

/-- Go `m[k] = v` (overwrite or insert). -/
def mset (m : JsonMap) (k : String) (v : Json) : JsonMap :=
  match m with
  | [] => [(k, v)]
  | (k', v') :: rest => if k' = k then (k, v) :: rest else (k', v') :: mset rest k v

/-- Keys of a map, in representation order. -/
def mkeys (m : JsonMap) : List String := m.map Prod.fst

/-- Structured Go errors returned by the translators.  Constructors carry
the data that the corresponding `errors.Errorf` message interpolates. -/
inductive Err where
  | msg (s : String)
  | unknownElement (name : String)
  | unknownAttribute (attr : String) (typeName : String)
  | listWithAttributes (typeName : String)
  | noTypeInSpec
  | collision (key : String) (typeName : String)
  | inconsistentListType
  | invalidReturnValue (elName : String)
  | notASoapDocument
  | multipleHeaders
  | multipleBodies
  | unknownOperation (action : String)
  | unexpectedWantedStart
  | unexpectedWantedEnd
  | eof
  | noHint
  | hintNotFound (hint : String) (elName : String)
  | simpleType (typeName : String)
  | unexpectedSimpleContent (jsonName : String)
  | expectedSimpleType
  | atoiFailed (text : String)
  | noListKey (listName : String)
  | extraElements (typeName : String) (leftover : List String)
  | couldNotDetermineListType
  | expectedObjectInList
  | invalidChangeType
  | cannotFindItems (child : String)
  | itemsNotArray (child : String)
  | itemNotObject
  | wrap (context : String) (e : Err)
  deriving Repr, DecidableEq

/-- Failure outcomes: a returned Go `error`, a Go runtime panic, or fuel
exhaustion of the embedding (never reached with enough fuel). -/
inductive Fail where
  | err (e : Err)
  | crash (s : String)
  | fuel
  deriving Repr, DecidableEq

abbrev Res (α : Type) := Except Fail α

def throwErr {α : Type} (e : Err) : Res α := Except.error (Fail.err e)

/-- errors.Wrap applied to a translator error (panics and fuel pass through). -/
def wrapF (ctx : String) : Fail → Fail
  | Fail.err e => Fail.err (Err.wrap ctx e)
  | f => f

/-- Wrap the error of a result, like `errors.Wrap(err, ctx)` on a failing call. -/
def wrapRes {α : Type} (ctx : String) : Res α → Res α
  | Except.error f => Except.error (wrapF ctx f)
  | r => r

/-- Simple type kinds T_BOOL .. T_LIST from ews_types.go. -/
inductive SimpleKind where
  | bool | num | str | enum | list
  deriving Repr, DecidableEq

/-- The two JSON-post hooks of ews_types.go, identified by name (the hook
table `jsonHooks` holds exactly the ResolveNamesType entry). -/
inductive JsonHookId where
  | resolveNames
  deriving Repr, DecidableEq

/-- The XML-choice hooks of ews_types.go (`xmlChoiceHooks` holds exactly
the SyncFolderHierarchyChangesType entry). -/
inductive ChoiceHookId where
  | syncFolderHierarchy
  deriving Repr, DecidableEq

/-- An attribute descriptor after Initialize: XML name, JSON name and the
attribute's type name (Attrs / AttrsNames / Attributes in ews_types.go). -/
structure AttrDesc where
  xn : String
  jn : String
  tn : String
  deriving Repr, DecidableEq

/-- EwsXmlElement: per-XML-local-name child descriptor for XML→JSON. -/
structure ElemDesc where
  jsonName : String
  typeName : String
  isList : Bool
  deriving Repr, DecidableEq

/-- EwsJsonType: a candidate target type with its XML tag. -/
structure EwsJsonTypeRef where
  typeName : String
  xmlTag : String
  deriving Repr, DecidableEq

/-- EwsJsonElement: JSON→XML element description.  `types = none` models a
nil `Types` map (single-type element). -/
structure EwsJsonElement where
  jsonName : String
  types : Option (List (String × EwsJsonTypeRef)) := none
  elements : List (String × EwsJsonTypeRef) := []
  singleType : Option EwsJsonTypeRef := none
  isList : Bool := false
  choiceHook : Option ChoiceHookId := none
  deriving Repr, DecidableEq

/-- EwsType after Initialize has run (registry record).  Type references
are stored by name and resolved through the registry. -/
structure EwsType where
  name : String
  attributes : List AttrDesc := []
  typeByElementName : List (String × ElemDesc) := []
  jsonDefaults : List (String × Json) := []
  jsonElementList : List EwsJsonElement := []
  jsonExtra : List String := []
  isSimple : Bool := false
  simpleType : SimpleKind := SimpleKind.bool
  textAttr : String := ""
  jsonType : String := ""
  isList : Bool := false
  jsonListName : String := ""
  jsonListElement : Option EwsJsonElement := none
  jsonHook : Option JsonHookId := none
  enumValues : List String := []
  listItemType : Option String := none
  deriving Repr

/-- The process-wide type registry `ewsTypes` (name → type). -/
abbrev Registry := List (String × EwsType)

def resolve (reg : Registry) (n : String) : Option EwsType :=
  match reg with
  | [] => none
  | (k, t) :: rest => if k = n then some t else resolve rest n

/-- OpDescriptor from ews_types.go (`Request` pointer kept by name). -/
structure OpDescriptor where
  action : String
  requestTypeName : String
  response : EwsJsonElement
  bodyType : String
  requestType : String
  deriving Repr, DecidableEq

/-- The globals of the ews package that the translators consult: the type
registry, the operation catalog `EwsOperations`, and the fixed SOAP
header types. -/
structure Globals where
  reg : Registry
  operations : List (String × OpDescriptor)
  soapRequestHeader : EwsType
  soapResponseHeader : EwsJsonElement
  deriving Repr

def lookupOpIn (ops : List (String × OpDescriptor)) (action : String) : Option OpDescriptor :=
  match ops with
  | [] => none
  | (k, op) :: rest => if k = action then some op else lookupOpIn rest action

def lookupOp (g : Globals) (action : String) : Option OpDescriptor :=
  lookupOpIn g.operations action

--
-- XML → JSON simple conversion (convertSimpleToJson, soap2json.go)
--

/-- First index of `x` in `l` the way the Go `for idx, value := range`
loop finds it. -/
def firstIdx (l : List String) (x : String) : Option Nat :=
  match l with
  | [] => none
  | y :: rest => if y = x then some 0 else (firstIdx rest x).map (· + 1)

/-- convertSimpleToJson from soap2json.go: bool accepts literal "true"/"1";
numbers become `json.Number` of the character data; enums become the first
matching index or fall back to the raw string; everything else passes the
character data through. -/
def convertSimpleToJson (typ : EwsType) (chardata : String) : Json :=
  match typ.simpleType with
  | SimpleKind.bool => Json.bool (chardata = "true" || chardata = "1")
  | SimpleKind.num => Json.num chardata
  | SimpleKind.enum =>
      match firstIdx typ.enumValues chardata with
      | some idx => Json.int idx
      | none => Json.str chardata
  | _ => Json.str chardata

--
-- JSON → string conversion (toString, json2soap.go)
--

/-- toString from json2soap.go: converts JSON leaves to the character data
string; `json.Number` keeps its lexical digits; anything else errors. -/
def toString : Json → Res String
  | Json.bool b => Except.ok (if b then "true" else "false")
  | Json.num s => Except.ok s
  | Json.str s => Except.ok s
  | Json.null => Except.ok ""
  | _ => throwErr Err.expectedSimpleType

--
-- JSON → SOAP (json2soap.go)
--

/-- Namespace constants from json2soap.go. -/
def NSSOAP := "http://schemas.xmlsoap.org/soap/envelope/"

def NSMSG := "http://schemas.microsoft.com/exchange/services/2006/messages"

def NSTYPE := "http://schemas.microsoft.com/exchange/services/2006/types"

def soapXmlns : List (String × String) :=
  [("xmlns:soap", NSSOAP), ("xmlns:m", NSMSG), ("xmlns:t", NSTYPE)]

/-- XML encoder events (xml.StartElement / xml.EndElement / xml.CharData
as fed to enc.EncodeToken). -/
inductive XmlEvt where
  | startE (name : String) (attrs : List (String × String))
  | endE (name : String)
  | chardata (s : String)
  deriving Repr, DecidableEq

/-- Digits of a decimal number, or none when empty or non-digit. -/
def digitsToNat : List Char → Option Nat
  | [] => none
  | cs => go cs 0
where
  go : List Char → Nat → Option Nat
    | [], acc => some acc
    | c :: rest, acc =>
        if c.isDigit then go rest (acc * 10 + (c.toNat - 48)) else none

/-- strconv.Atoi: optional sign followed by decimal digits (the int64
range check is irrelevant to the claims and omitted). -/
def parseAtoi (s : String) : Option Int :=
  match s.toList with
  | [] => none
  | '+' :: rest => (digitsToNat rest).map (fun n => (n : Int))
  | '-' :: rest => (digitsToNat rest).map (fun n => -(n : Int))
  | cs => (digitsToNat cs).map (fun n => (n : Int))

/-- Lookup in a `map[string]*EwsJsonType`. -/
def tlookup (l : List (String × EwsJsonTypeRef)) (k : String) : Option EwsJsonTypeRef :=
  match l with
  | [] => none
  | (k', v) :: rest => if k' = k then some v else tlookup rest k

/-- Resolve a type reference that the Go code holds as a pointer and
dereferences without a nil check: an unresolved name is a nil-pointer
panic. -/
def resolveT (reg : Registry) (n : String) : Res EwsType :=
  match resolve reg n with
  | some t => Except.ok t
  | none => Except.error (Fail.crash "nil EwsType pointer")

/-- EwsJsonElement.IsCharData from ews_types.go; dereferences
SingleType.Type when SingleType is non-nil. -/
def isCharData (reg : Registry) (e : EwsJsonElement) : Res Bool :=
  match e.types with
  | some _ => Except.ok false
  | none =>
      match e.singleType with
      | none => Except.ok true
      | some st => do
          let t ← resolveT reg st.typeName
          Except.ok (t.isSimple && t.textAttr == "")

/-- The SyncFolderHierarchyChangesType XML-choice hook from ews_types.go:
the `t:`-prefixed ChangeType value selects the element from `Elements`. -/
def syncFolderHierarchyHook (edesc : EwsJsonElement) (element : JsonMap) :
    Res EwsJsonTypeRef :=
  match mget element "ChangeType" with
  | some (Json.str s) =>
      match tlookup edesc.elements ("t:" ++ s) with
      | some jt => Except.ok jt
      | none => throwErr Err.invalidChangeType
  | _ => throwErr Err.invalidChangeType

/-- Dispatch through the `xmlChoiceHooks` table. -/
def runChoiceHook (h : ChoiceHookId) (edesc : EwsJsonElement) (element : JsonMap) :
    Res EwsJsonTypeRef :=
  match h with
  | ChoiceHookId.syncFolderHierarchy => syncFolderHierarchyHook edesc element

/-- processJsonChardata from json2soap.go: convert the leaf to a string
and emit one chardata event. -/
def processJsonChardata (el : Json) : Res (List XmlEvt) := do
  let text ← toString el
  Except.ok [XmlEvt.chardata text]

/-- The attribute loop of processJsonObject: iterate the declared
attributes in order, convert present keys, remove them from the value. -/
def consumeAttrs : List AttrDesc → JsonMap → Res (List (String × String) × JsonMap)
  | [], m => Except.ok ([], m)
  | a :: rest, m =>
      match mget m a.jn with
      | some o => do
          let s ← wrapRes ("invalid attribute " ++ a.jn) (toString o)
          let (attrs, m') ← consumeAttrs rest (mdel m a.jn)
          Except.ok ((a.xn, s) :: attrs, m')
      | none => consumeAttrs rest m

/-- The guard of json2soap.go line 366: the declared child has a single
type that is a simple list whose item type is an enum.  Returns that item
type.  (Go dereferences `je.SingleType.Type` without a nil check — an
unresolved reference is a panic; `ListItemType` was resolved at
initialization, which panics at startup on a dangling name, so an
unresolvable item name cannot be observed at translation time.) -/
def enumListItemType (g : Globals) (je : EwsJsonElement) : Res (Option EwsType) :=
  match je.singleType with
  | none => Except.ok none
  | some st => do
      let t ← resolveT g.reg st.typeName
      if t.isSimple && t.simpleType == SimpleKind.list then
        match t.listItemType with
        | none => Except.ok none
        | some lin =>
            match resolve g.reg lin with
            | none => Except.ok none
            | some lt =>
                Except.ok (if lt.isSimple && lt.simpleType == SimpleKind.enum
                  then some lt else none)
      else Except.ok none

/-- Modelled from the spec: the emef/bitfield library (not part of this
repository).  `bitfield.NewFromUint32(x).Test(i)` is bit `i` of the 32-bit
value: the spec describes "a 32-bit bitfield where bit i set means index i
of the enum is present". -/
def bitTest (bits : Nat) (i : Nat) : Bool := Nat.testBit bits i

/-- The label-selection loop of the bitfield branch: labels whose index
bit is set, in enum order. -/
def selectedLabels (labels : List String) (bits : Nat) : List String :=
  (labels.enum.filter (fun p => bitTest bits p.1)).map Prod.snd

/-- The bitfield-enum-list branch of processJsonObject (json2soap.go
lines 368-399): read the value as an integer, truncate to uint32, join the
selected enum labels with single spaces, emit one element. -/
def emitEnumList (st : EwsJsonTypeRef) (lt : EwsType) (obj : Json) : Res (List XmlEvt) := do
  let numStr ← wrapRes "Unable to convert list value to string" (toString obj)
  match parseAtoi numStr with
  | none => throwErr (Err.wrap ("Unable to convert " ++ numStr ++ " to integer")
      (Err.atoiFailed numStr))
  | some n =>
      let bits := (n % (4294967296 : Int)).toNat
      let text := String.intercalate " " (selectedLabels lt.enumValues bits)
      Except.ok [XmlEvt.startE st.xmlTag [], XmlEvt.chardata text, XmlEvt.endE st.xmlTag]

/-- Call states of the JSON→SOAP recursion: processJson (`top`),
processJsonObject (`objc`), processJsonList (`listc`), the item loop of
processJsonList (`items`), and the declared-children loop of
processJsonObject (`elems`, which returns the residual value map). -/
inductive PJCall where
  | top (v : Json) (e : EwsJsonElement)
  | objc (m : JsonMap) (e : EwsJsonElement)
  | listc (l : List Json) (e : EwsJsonElement)
  | items (l : List Json) (cd : EwsJsonElement)
  | elems (jes : List EwsJsonElement) (m : JsonMap)

/-- The type-resolution step of processJsonObject (json2soap.go lines
271-296): single type, else choice hook, else `__type` hint lookup. -/
def resolveChoice (e : EwsJsonElement) (m : JsonMap) : Res EwsJsonTypeRef :=
  match e.singleType with
  | some st => Except.ok st
  | none =>
      match e.choiceHook with
      | some h => runChoiceHook h e m
      | none =>
          match mget m "__type" with
          | some (Json.str hint) =>
              match tlookup (e.types.getD []) hint with
              | some jt => Except.ok jt
              | none => throwErr (Err.hintNotFound hint e.jsonName)
          | _ => throwErr Err.noHint

/-- The childDesc/jtyp selection of processJsonList (json2soap.go lines
448-481): favor the single type when it is a list, else a bare is-list
descriptor, else fail. -/
def listChildDesc (g : Globals) (e : EwsJsonElement) :
    Res (EwsJsonElement × Option EwsJsonTypeRef) :=
  match e.singleType with
  | some st => do
      let t ← resolveT g.reg st.typeName
      if t.jsonListName != "" || t.isList then
        match t.jsonListElement with
        | none => Except.error (Fail.crash "nil JsonListElement pointer")
        | some jl =>
            let childDesc : EwsJsonElement :=
              { jsonName := e.jsonName, types := jl.types, elements := [],
                singleType := jl.singleType, isList := false, choiceHook := none }
            Except.ok (childDesc, some st)
      else if e.isList then Except.ok (e, none)
      else throwErr Err.couldNotDetermineListType
  | none =>
      if e.isList then Except.ok (e, none)
      else throwErr Err.couldNotDetermineListType

/-- The mutually recursive core of JSON→SOAP translation (processJson /
processJsonObject / processJsonList and their two inner loops), embedded
with fuel.  Returns the emitted XML events, and for `elems` also the
residual value map (Go mutates the caller's map in place). -/
def pjRun (g : Globals) : Nat → PJCall → Res (List XmlEvt × JsonMap)
  | 0, _ => Except.error Fail.fuel
  | fuel + 1, c =>
    match c with
    | PJCall.top v e =>
        match v with
        | Json.obj m => wrapRes e.jsonName (pjRun g fuel (PJCall.objc m e))
        | Json.arr l => wrapRes e.jsonName (pjRun g fuel (PJCall.listc l e))
        | Json.null => Except.ok ([], [])
        | el => do
            let cd ← isCharData g.reg e
            if !cd then throwErr (Err.unexpectedSimpleContent e.jsonName)
            else
              match e.singleType with
              | none => Except.error (Fail.crash "nil SingleType pointer")
              | some st => do
                  let text ← wrapRes e.jsonName (toString el)
                  let ewsType ← resolveT g.reg st.typeName
                  if ewsType.isSimple && ewsType.simpleType == SimpleKind.enum then
                    match parseAtoi text with
                    | none => throwErr (Err.wrap ("Unable to convert " ++ text ++
                        " to an integer") (Err.atoiFailed text))
                    | some n =>
                        if n < 0 then Except.error (Fail.crash "index out of range")
                        else
                          match ewsType.enumValues.get? n.toNat with
                          | none => Except.error (Fail.crash "index out of range")
                          | some label =>
                              Except.ok ([XmlEvt.startE st.xmlTag [],
                                XmlEvt.chardata label, XmlEvt.endE st.xmlTag], [])
                  else
                    Except.ok ([XmlEvt.startE st.xmlTag [],
                      XmlEvt.chardata text, XmlEvt.endE st.xmlTag], [])
    | PJCall.objc m e => do
        let jtyp ← resolveChoice e m
        let typ ← resolveT g.reg jtyp.typeName
        let m := mdel m "__type"
        if typ.isSimple && typ.textAttr == "" then throwErr (Err.simpleType typ.name)
        else do
          let (attrs, m) ← consumeAttrs typ.attributes m
          let (bodyEvts, m) ←
            if typ.isSimple && typ.textAttr != "" then
              match mget m typ.textAttr with
              | some o => do
                  let evs ← wrapRes typ.textAttr (processJsonChardata o)
                  Except.ok (evs, mdel m typ.textAttr)
              | none => Except.ok (([] : List XmlEvt), m)
            else if typ.jsonListName != "" then
              match mget m typ.jsonListName with
              | none => throwErr (Err.noListKey typ.jsonListName)
              | some Json.null => throwErr (Err.noListKey typ.jsonListName)
              | some v =>
                  match typ.jsonListElement with
                  | none => Except.error (Fail.crash "nil JsonListElement pointer")
                  | some jle => do
                      let (evs, _) ← pjRun g fuel (PJCall.top v jle)
                      Except.ok (evs, mdel m typ.jsonListName)
            else
              pjRun g fuel (PJCall.elems typ.jsonElementList m)
          let m := typ.jsonExtra.foldl mdel m
          if m.isEmpty then
            Except.ok ([XmlEvt.startE jtyp.xmlTag attrs] ++ bodyEvts ++
              [XmlEvt.endE jtyp.xmlTag], [])
          else throwErr (Err.extraElements typ.name (mkeys m))
    | PJCall.listc l e => do
        let (childDesc, jtyp) ← listChildDesc g e
        let (itemEvts, _) ← pjRun g fuel (PJCall.items l childDesc)
        match jtyp with
        | some st =>
            Except.ok ([XmlEvt.startE st.xmlTag []] ++ itemEvts ++
              [XmlEvt.endE st.xmlTag], [])
        | none => Except.ok (itemEvts, [])
    | PJCall.items l cd =>
        match l with
        | [] => Except.ok ([], [])
        | Json.null :: rest => pjRun g fuel (PJCall.items rest cd)
        | x :: rest => do
            let isCd ← isCharData g.reg cd
            let evs ←
              if isCd then
                match cd.singleType with
                | none => Except.error (Fail.crash "nil SingleType pointer")
                | some st => do
                    let text ← wrapRes "processing list" (toString x)
                    Except.ok [XmlEvt.startE st.xmlTag [], XmlEvt.chardata text,
                      XmlEvt.endE st.xmlTag]
              else
                match x with
                | Json.obj m => do
                    let (evs, _) ← pjRun g fuel (PJCall.objc m cd)
                    Except.ok evs
                | _ => throwErr Err.expectedObjectInList
            let (restEvts, _) ← pjRun g fuel (PJCall.items rest cd)
            Except.ok (evs ++ restEvts, [])
    | PJCall.elems jes m =>
        match jes with
        | [] => Except.ok ([], m)
        | je :: rest =>
            match mget m je.jsonName with
            | none => pjRun g fuel (PJCall.elems rest m)
            | some obj => do
                let itemTy ← enumListItemType g je
                let evs ←
                  match itemTy with
                  | some lt =>
                      match je.singleType with
                      | some st => emitEnumList st lt obj
                      | none => Except.error (Fail.crash "nil SingleType pointer")
                  | none => do
                      let (evs, _) ← pjRun g fuel (PJCall.top obj je)
                      Except.ok evs
                let (restEvts, m') ← pjRun g fuel (PJCall.elems rest (mdel m je.jsonName))
                Except.ok (evs ++ restEvts, m')

/-- processJson from json2soap.go. -/
def processJson (g : Globals) (fuel : Nat) (v : Json) (e : EwsJsonElement) :
    Res (List XmlEvt) :=
  (pjRun g fuel (PJCall.top v e)).map Prod.fst

/-- processJsonObject from json2soap.go. -/
def processJsonObject (g : Globals) (fuel : Nat) (m : JsonMap) (e : EwsJsonElement) :
    Res (List XmlEvt) :=
  (pjRun g fuel (PJCall.objc m e)).map Prod.fst

/-- processJsonList from json2soap.go. -/
def processJsonList (g : Globals) (fuel : Nat) (l : List Json) (e : EwsJsonElement) :
    Res (List XmlEvt) :=
  (pjRun g fuel (PJCall.listc l e)).map Prod.fst

--
-- SOAP → JSON (soap2json.go)
--

/-- An XML attribute as the Go decoder exposes it (namespace, local name,
value). -/
structure XAttr where
  space : String
  localName : String
  value : String
  deriving Repr, DecidableEq

/-- XML pull-parser tokens as returned by xml.Decoder.Token: start
elements carry the local name and attributes; `other` stands for the token
kinds the code ignores (comments, directives, processing instructions). -/
inductive Tok where
  | startE (name : String) (attrs : List XAttr)
  | endE (name : String)
  | chardata (s : String)
  | other
  deriving Repr

/-- The `ret` interface variable of processElement: nil, aliasing the
ordered object, holding the list slice value, or holding a converted
scalar. -/
inductive RetVal where
  | nil
  | toObj
  | listVal (l : List Json)
  | scal (v : Json)
  deriving Repr

/-- The mutable state (obj, listObj, ret) of processElement.  `obj = none`
is a nil *OrderedObject pointer, `list = none` a nil slice. -/
structure PESt where
  obj : Option OrderedObj := none
  list : Option (List Json) := none
  ret : RetVal := RetVal.nil
  deriving Repr

/-- Go `strings.Trim(s, "\t\r\b\n ")`. -/
def trimChars : List Char := ['\t', '\r', '\x08', '\n', ' ']

def trimGo (s : String) : String :=
  String.mk (((s.toList.dropWhile (· ∈ trimChars)).reverse.dropWhile
    (· ∈ trimChars)).reverse)

/-- Find an attribute descriptor by XML name (the Attrs map lookup). -/
def afind : List AttrDesc → String → Option AttrDesc
  | [], _ => none
  | a :: rest, xn => if a.xn = xn then some a else afind rest xn

/-- The attribute-installation loop of initRetObject: skip xmlns
attributes, convert declared ones, error on unknown names.  A dangling
attribute type name is a nil-pointer use inside convertSimpleToJson. -/
def installAttrs (reg : Registry) (typ : EwsType) :
    List XAttr → OrderedObj → Res OrderedObj
  | [], o => Except.ok o
  | a :: rest, o =>
      if a.space != "xmlns" && a.localName != "xmlns" then
        match afind typ.attributes a.localName with
        | some ad =>
            match resolve reg ad.tn with
            | none => Except.error (Fail.crash "nil EwsType pointer")
            | some atype =>
                installAttrs reg typ rest (oset o ad.jn (convertSimpleToJson atype a.value))
        | none => throwErr (Err.unknownAttribute a.localName typ.name)
      else installAttrs reg typ rest o

/-- The fresh ordered object with the type hint installed first when the
type carries a discriminator (the NewOrderedObject plus conditional
`obj.Set("__type", ...)` of initRetObject). -/
def baseObj (typ : EwsType) : OrderedObj :=
  if typ.jsonType != "" then oset [] "__type" (Json.str typ.jsonType) else []

/-- initRetObject from soap2json.go: build the initial (obj, listObj, ret)
triple for an element of the given type. -/
def initRetObject (reg : Registry) (attrs : List XAttr) (typ : EwsType) : Res PESt :=
  if !typ.isSimple || typ.textAttr != "" then
    if typ.jsonListName != "" || typ.isList then
      if attrs.any (fun a => a.space != "xmlns" && a.localName != "xmlns") then
        throwErr (Err.listWithAttributes typ.name)
      else
        if typ.jsonListName != "" then
          let o1 := oset (baseObj typ) typ.jsonListName (Json.arr [])
          Except.ok { obj := some o1, list := some [], ret := RetVal.toObj }
        else
          Except.ok { obj := none, list := some [], ret := RetVal.listVal [] }
    else
      (installAttrs reg typ attrs (baseObj typ)).map
        (fun o1 => { obj := some o1, list := none, ret := RetVal.toObj })
  else Except.ok { obj := none, list := none, ret := RetVal.nil }

/-- The child-installation step of processElement (soap2json.go lines
200-228): named-list append, bare-list append, is-list key append, or
plain key set with the collision check and the empty-string hack. -/
def installChild (typ : EwsType) (nextElem : ElemDesc) (childTyp : EwsType)
    (newItem : Option Json) (st : PESt) : Res PESt :=
  if typ.jsonListName != "" then
    let l' := (st.list.getD []) ++ [newItem.getD Json.null]
    match st.obj with
    | none => Except.error (Fail.crash "nil map write")
    | some o =>
        Except.ok { st with
            obj := some (oset o typ.jsonListName (Json.arr l'))
            list := some l' }
  else if typ.isList then
    let l' := (st.list.getD []) ++ [newItem.getD Json.null]
    Except.ok { st with list := some l', ret := RetVal.listVal l' }
  else if nextElem.isList then
    match st.obj with
    | none => Except.error (Fail.crash "nil map write")
    | some o =>
        match oget o nextElem.jsonName with
        | some (Json.arr elist) =>
            let o' := oset o nextElem.jsonName (Json.arr (elist ++ [newItem.getD Json.null]))
            Except.ok { st with obj := some o' }
        | some _ => throwErr Err.inconsistentListType
        | none =>
            let o' := oset o nextElem.jsonName (Json.arr [newItem.getD Json.null])
            Except.ok { st with obj := some o' }
  else
    let item : Json :=
      match newItem with
      | none =>
          if childTyp.isSimple && childTyp.simpleType == SimpleKind.str then Json.str ""
          else Json.null
      | some j => j
    match st.obj with
    | none => Except.error (Fail.crash "nil map write")
    | some o =>
        if osetAdded o nextElem.jsonName then
          Except.ok { st with obj := some (oset o nextElem.jsonName item) }
        else throwErr (Err.collision nextElem.jsonName typ.name)

/-- The JSON-defaults insertion at the end element (soap2json.go lines
234-239). -/
def applyDefaults : List (String × Json) → OrderedObj → OrderedObj
  | [], o => o
  | (jn, dv) :: rest, o =>
      applyDefaults rest (if (oget o jn).isSome then o else oset o jn dv)

/-- The JSON post hook dispatch (jsonHooks table: ResolveNamesType inserts
ContactDataShape = Default when absent). -/
def applyHook : Option JsonHookId → OrderedObj → OrderedObj
  | none, o => o
  | some JsonHookId.resolveNames, o =>
      if (oget o "ContactDataShape").isSome then o
      else oset o "ContactDataShape" (Json.str "Default")

/-- The lazy `if ret == nil` initialization inside the processElement
loop. -/
def ensureInit (reg : Registry) (attrs : List XAttr) (typ : EwsType) (st : PESt) :
    Res PESt :=
  match st.ret with
  | RetVal.nil => initRetObject reg attrs typ
  | _ => Except.ok st

/-- The token loop of processElement from soap2json.go, embedded with
fuel.  `elAttrs` are the attributes of the element being processed (used
by the lazy initRetObject calls); returns the converted value (none for an
empty element) and the unconsumed token stream. -/
def peRun (glob : Globals) : Nat → List XAttr → EwsType → PESt → List Tok →
    Res (Option Json × List Tok)
  | 0, _, _, _, _ => Except.error Fail.fuel
  | fuel + 1, elAttrs, typ, st, ts =>
      match ts with
      | [] => throwErr Err.eof
      | tok :: rest =>
          match tok with
          | Tok.startE childName childAttrs => do
              let st1 ← ensureInit glob.reg elAttrs typ st
              match lookupElem typ.typeByElementName childName with
              | none => throwErr (Err.unknownElement childName)
              | some nextElem =>
                  match resolve glob.reg nextElem.typeName with
                  | none => throwErr Err.noTypeInSpec
                  | some childTyp => do
                      let childSt ←
                        if childAttrs.isEmpty then
                          Except.ok ({} : PESt)
                        else initRetObject glob.reg childAttrs childTyp
                      let (newItem, rest1) ← peRun glob fuel childAttrs childTyp childSt rest
                      let st2 ← installChild typ nextElem childTyp newItem st1
                      peRun glob fuel elAttrs typ st2 rest1
          | Tok.chardata sdata =>
              let trimmed := trimGo sdata
              if trimmed = "" then peRun glob fuel elAttrs typ st rest
              else do
                let st1 ← ensureInit glob.reg elAttrs typ st
                let converted := convertSimpleToJson typ trimmed
                if typ.textAttr != "" then
                  match st1.obj with
                  | none => Except.error (Fail.crash "nil map write")
                  | some o =>
                      peRun glob fuel elAttrs typ
                        { st1 with
                            obj := some (oset o typ.textAttr converted)
                            ret := RetVal.toObj } rest
                else
                  peRun glob fuel elAttrs typ { st1 with ret := RetVal.scal converted } rest
          | Tok.endE _ =>
              match st.ret with
              | RetVal.toObj =>
                  match st.obj with
                  | some o =>
                      Except.ok (some (Json.obj (applyHook typ.jsonHook
                        (applyDefaults typ.jsonDefaults o))), rest)
                  | none => Except.error (Fail.crash "nil object")
              | RetVal.nil => Except.ok (none, rest)
              | RetVal.listVal l => Except.ok (some (Json.arr l), rest)
              | RetVal.scal v => Except.ok (some v, rest)
          | Tok.other => peRun glob fuel elAttrs typ st rest
where
  lookupElem : List (String × ElemDesc) → String → Option ElemDesc
    | [], _ => none
    | (k, d) :: rest, n => if k = n then some d else lookupElem rest n

/-- processElement from soap2json.go: nil type check, early attribute
initialization, then the token loop. -/
def processElement (glob : Globals) (fuel : Nat) (elAttrs : List XAttr)
    (typ : Option EwsType) (ts : List Tok) : Res (Option Json × List Tok) :=
  match typ with
  | none => throwErr Err.noTypeInSpec
  | some t => do
      let st0 ←
        if elAttrs.isEmpty then Except.ok ({} : PESt)
        else initRetObject glob.reg elAttrs t
      peRun glob fuel elAttrs t st0 ts

/-- getNextElement from soap2json.go: skip uninteresting tokens, expect a
start or end element. -/
def getNextElement (wantStart : Bool) : List Tok → Res (Tok × List Tok)
  | [] => throwErr Err.eof
  | t :: rest =>
      match t with
      | Tok.startE _ _ =>
          if wantStart then Except.ok (t, rest) else throwErr Err.unexpectedWantedEnd
      | Tok.endE _ =>
          if !wantStart then Except.ok (t, rest) else throwErr Err.unexpectedWantedStart
      | _ => getNextElement wantStart rest

/-- The prepend-or-replace type-hint placement of processSoapElement
(soap2json.go lines 335-350). -/
def setTypeHint (jsonType : String) (o : OrderedObj) : OrderedObj :=
  if jsonType = "" then o
  else
    match o with
    | [] => [("__type", Json.str jsonType)]
    | (k, v) :: rest =>
        if k = "__type" then ("__type", Json.str jsonType) :: rest
        else ("__type", Json.str jsonType) :: (k, v) :: rest

/-- processSoapElement from soap2json.go: translate the element, demand an
ordered object (or nil), then place the type hint first. -/
def processSoapElement (glob : Globals) (fuel : Nat) (elName : String)
    (elAttrs : List XAttr) (typ : Option EwsType) (jsonType : String) (ts : List Tok) :
    Res (Option OrderedObj × List Tok) := do
  let (anyElem, rest) ← processElement glob fuel elAttrs typ ts
  match anyElem with
  | none => Except.ok (none, rest)
  | some (Json.obj o) => Except.ok (some (setTypeHint jsonType o), rest)
  | some _ => throwErr (Err.invalidReturnValue elName)

/-- Go strings.HasPrefix (spelled out so the kernel can evaluate it). -/
def goHasPrefix (s pre : String) : Bool :=
  pre.toList.isPrefixOf s.toList

/-- The version rewrite of the header fixup (soap2json.go lines 417-422). -/
def upgradeVersion (v : String) : String :=
  if goHasPrefix v "Exchange2007" || goHasPrefix v "Exchange2010" then "Exchange2013"
  else v

/-- The inner loop over a RequestServerVersion object: the last Version
entry holding a string determines the final assignment. -/
def lastStringVersion : OrderedObj → Option String
  | [] => none
  | (k, v) :: rest =>
      match lastStringVersion rest with
      | some s => some s
      | none =>
          if k = "Version" then
            match v with
            | Json.str s => some s
            | _ => none
          else none

/-- One member of the header fixup loop: a RequestServerVersion member
whose value is an ordered object with a string Version is collapsed to the
(possibly upgraded) version string. -/
def fixupMember (k : String) (v : Json) : Json :=
  if k = "RequestServerVersion" then
    match v with
    | Json.obj members =>
        match lastStringVersion members with
        | some ver => Json.str (upgradeVersion ver)
        | none => v
    | _ => v
  else v

/-- The header fixup loop of SOAP2JSON (soap2json.go lines 403-429). -/
def fixupHeader (h : OrderedObj) : OrderedObj :=
  h.map (fun kv => (kv.1, fixupMember kv.1 kv.2))

/-- The synthesized header for requests whose Header element produced
nothing (soap2json.go lines 433-437). -/
def synthHeader : OrderedObj :=
  [("__type", Json.str "JsonRequestHeaders:#Exchange"),
   ("RequestServerVersion", Json.str "Exchange2013")]

/-- The header/body consumption loop of SOAP2JSON, embedded with fuel.
State: gotHeader, gotBody, the accumulated header/body objects, the
resolved operation and message type. -/
def soapLoop (glob : Globals) : Nat → Bool → Bool → Option OrderedObj →
    Option OrderedObj → Option OpDescriptor → String → List Tok →
    Res ((Option OrderedObj × Option OrderedObj × Option OpDescriptor × String) × List Tok)
  | 0, _, _, _, _, _, _, _ => Except.error Fail.fuel
  | fuel + 1, gotHeader, gotBody, header, body, op, msgType, ts =>
      if gotHeader && gotBody then Except.ok ((header, body, op, msgType), ts)
      else do
        let (tok, rest) ← getNextElement true ts
        match tok with
        | Tok.startE nm elAttrs =>
            if nm = "Header" then
              if gotHeader then throwErr Err.multipleHeaders
              else do
                let (hdr, rest2) ← processSoapElement glob fuel "Header" elAttrs
                  (some glob.soapRequestHeader) glob.soapRequestHeader.jsonType rest
                let header' :=
                  match hdr with
                  | some h => some (fixupHeader h)
                  | none => some synthHeader
                soapLoop glob fuel true gotBody header' body op msgType rest2
            else if nm = "Body" then
              if gotBody then throwErr Err.multipleBodies
              else do
                let (actTok, rest2) ← getNextElement true rest
                match actTok with
                | Tok.startE actName actAttrs =>
                    match lookupOp glob actName with
                    | none => throwErr (Err.unknownOperation actName)
                    | some opd => do
                        let (bdy, rest3) ← processSoapElement glob fuel actName actAttrs
                          (resolve glob.reg opd.requestTypeName) opd.bodyType rest2
                        let (_, rest4) ← getNextElement false rest3
                        soapLoop glob fuel gotHeader true header bdy (some opd)
                          opd.requestType rest4
                | _ => Except.error (Fail.crash "getNextStartElement returned non-start")
            else soapLoop glob fuel gotHeader gotBody header body op msgType rest
        | _ => Except.error (Fail.crash "getNextStartElement returned non-start")

/-- The assembled SOAP-to-JSON message (before serialization): the
`__type` discriminator, the Header object or null, the Body object or
null. -/
structure SoapJsonMsg where
  msgType : String
  header : Option OrderedObj
  body : Option OrderedObj
  deriving Repr

/-- The final message value that SOAP2JSON marshals. -/
def soapJsonValue (m : SoapJsonMsg) : Json :=
  Json.obj [("__type", Json.str m.msgType),
    ("Header", match m.header with | some h => Json.obj h | none => Json.null),
    ("Body", match m.body with | some b => Json.obj b | none => Json.null)]

/-- SOAP2JSON from soap2json.go at the token level: consume the Envelope
start, run the header/body loop, consume the Envelope end, and assemble
the message. -/
def SOAP2JSON (glob : Globals) (fuel : Nat) (ts : List Tok) :
    Res (SoapJsonMsg × Option OpDescriptor) := do
  let (tok, rest) ← getNextElement true ts
  match tok with
  | Tok.startE nm _ =>
      if nm != "Envelope" then throwErr Err.notASoapDocument
      else do
        let ((header, body, op, msgType), rest2) ←
          soapLoop glob fuel false false none none none "" rest
        let (_, _) ← getNextElement false rest2
        Except.ok ({ msgType := msgType, header := header, body := body }, op)
  | _ => Except.error (Fail.crash "getNextStartElement returned non-start")

/-- The decoded `JsonSoapMessage`: `Header` and `Body` are Go maps and may
be nil. -/
structure JsonSoapMessage where
  type : String := ""
  header : Option JsonMap := none
  body : Option JsonMap := none

/-- The per-item stamping loop of JSON2SOAP: every item of the Items
array must be an object and receives the `__type` hint. -/
def stampItems (respMsgName : String) : List Json → Res (List Json)
  | [] => Except.ok []
  | Json.obj im :: rest => do
      let rest' ← stampItems respMsgName rest
      Except.ok (Json.obj (mset im "__type" (Json.str respMsgName)) :: rest')
  | _ :: _ => throwErr Err.itemNotObject

/-- The per-child body of the response type-hint injection loop of
JSON2SOAP (json2soap.go lines 114-156): skip absent, null or non-object
children; a present child object must contain an Items array whose items
all get stamped. -/
def stampChild (respMsgName : String) (name : String) (body : JsonMap) : Res JsonMap :=
  match mget body name with
  | none => Except.ok body
  | some Json.null => Except.ok body
  | some (Json.obj cm) =>
      match mget cm "Items" with
      | none => throwErr (Err.cannotFindItems name)
      | some (Json.arr items) => do
          let stamped ← stampItems respMsgName items
          Except.ok (mset body name (Json.obj (mset cm "Items" (Json.arr stamped))))
      | some _ => throwErr (Err.itemsNotArray name)
  | some _ => Except.ok body

/-- The walk over all child element names declared on the response type. -/
def stampChildren (respMsgName : String) : List String → JsonMap → Res JsonMap
  | [], body => Except.ok body
  | n :: rest, body => do
      let b ← stampChild respMsgName n body
      stampChildren respMsgName rest b

/-- The response type-hint injection phase of JSON2SOAP: walk each child
element name declared on the operation's response type (Go dereferences
`op.Response.SingleType.Type` without nil checks). -/
def stampBody (g : Globals) (op : OpDescriptor) (body : JsonMap) : Res JsonMap :=
  match op.response.singleType with
  | none => Except.error (Fail.crash "nil SingleType pointer")
  | some st => do
      let t ← resolveT g.reg st.typeName
      stampChildren (op.response.jsonName ++ "Message")
        (t.typeByElementName.map Prod.fst) body

/-- JSON2SOAP from json2soap.go, at the XML-event level (the XML
declaration and indentation are writer formatting, not events). -/
def JSON2SOAP (g : Globals) (fuel : Nat) (msg : JsonSoapMessage) (op : OpDescriptor) :
    Res (List XmlEvt) := do
  let headerEvts ←
    match msg.header with
    | some h => wrapRes "soap:Header" (processJson g fuel (Json.obj h) g.soapResponseHeader)
    | none => Except.ok []
  let bodyEvts ←
    match msg.body with
    | some b => do
        let b' ← stampBody g op b
        let evs ← wrapRes "soap:Body" (processJson g fuel (Json.obj b') op.response)
        Except.ok ([XmlEvt.startE "soap:Body" []] ++ evs ++ [XmlEvt.endE "soap:Body"])
    | none => Except.ok []
  Except.ok ([XmlEvt.startE "soap:Envelope" soapXmlns] ++ headerEvts ++ bodyEvts ++
    [XmlEvt.endE "soap:Envelope"])

end Ews

--
-- Claim theorems (first batch: scalar conversions)
--

namespace Ews

--
-- Claim-level definitions (fixtures, invariants, spec-side descriptions)
--

/-- A registry with one enum type of two labels, for exercising the enum
scalar branch of processJson. -/
def enumScalarType : EwsType :=
  { name := "IndexedPageViewType", isSimple := true, simpleType := SimpleKind.enum,
    enumValues := ["Beginning", "End"] }

def enumScalarGlobals : Globals :=
  { reg := [("IndexedPageViewType", enumScalarType)], operations := [],
    soapRequestHeader := { name := "RH" },
    soapResponseHeader := { jsonName := "Header" } }

def enumScalarDesc : EwsJsonElement :=
  { jsonName := "BasePoint",
    singleType := some { typeName := "IndexedPageViewType", xmlTag := "t:BasePoint" } }

/-- Spec-side description of the selected labels: ascending indices, label
at index `i` included exactly when bit `i` of the truncated integer is
set. -/
def selectedLabelsSpec (labels : List String) (bits : Nat) : List String :=
  (List.range labels.length).filterMap
    (fun i => if Nat.testBit bits i then labels.get? i else none)

/-- The enum of the spec's bitfield example. -/
def exampleEnumT : EwsType :=
  { name := "ImportanceChoicesType", isSimple := true,
    simpleType := SimpleKind.enum, enumValues := ["None", "A", "B", "C"] }

/-- The simple-list-of-enum of the spec's bitfield example. -/
def exampleListT : EwsType :=
  { name := "ImportanceList", isSimple := true, simpleType := SimpleKind.list,
    listItemType := some "ImportanceChoicesType" }

def exampleSt : EwsJsonTypeRef := { typeName := "ImportanceList", xmlTag := "t:Importance" }

def exampleGlobals : Globals :=
  { reg := [("ImportanceList", exampleListT), ("ImportanceChoicesType", exampleEnumT)],
    operations := [],
    soapRequestHeader := { name := "RH" },
    soapResponseHeader := { jsonName := "Header" } }

def exampleJe : EwsJsonElement := { jsonName := "Importance", singleType := some exampleSt }

/-- Registry sanity for the discriminator claim: no JSON key that the
translator installs on the object of this type is itself named `__type`
(true of the generated EWS registry; the discriminator is only ever set by
the dedicated code paths). -/
def typWF (t : EwsType) : Prop :=
  t.textAttr ≠ "__type" ∧ t.jsonListName ≠ "__type" ∧
  (∀ a ∈ t.attributes, a.jn ≠ "__type") ∧
  (∀ p ∈ t.typeByElementName, p.2.jsonName ≠ "__type") ∧
  (∀ d ∈ t.jsonDefaults, d.1 ≠ "__type")

/-- The object starts with the `__type` discriminator of the given value. -/
def headIsType (jt : String) (o : OrderedObj) : Prop :=
  ∃ r, o = ("__type", Json.str jt) :: r

/-- The state invariant of the processElement loop: any built object
carries the type's discriminator first, and a scalar `ret` never holds an
object. -/
def stInv (t : EwsType) (st : PESt) : Prop :=
  (∀ o, st.obj = some o → headIsType t.jsonType o) ∧
  (∀ v, st.ret = RetVal.scal v → ∀ ms, v ≠ Json.obj ms)

def c1StrT : EwsType := { name := "StringT", isSimple := true, simpleType := SimpleKind.str }

def c1Typ : EwsType :=
  { name := "FolderType", jsonType := "Folder:#Exchange",
    typeByElementName :=
      [("DisplayName",
        ({ jsonName := "DisplayName", typeName := "StringT", isList := false } : ElemDesc))] }

def c1Glob : Globals :=
  { reg := [("FolderType", c1Typ), ("StringT", c1StrT)], operations := [],
    soapRequestHeader := { name := "RH" },
    soapResponseHeader := { jsonName := "Header" } }

def c1Toks : List Tok :=
  [Tok.startE "DisplayName" [], Tok.chardata "Inbox", Tok.endE "DisplayName",
   Tok.endE "Folder"]

def c1Obj : OrderedObj :=
  [("__type", Json.str "Folder:#Exchange"), ("DisplayName", Json.str "Inbox")]

/-- The registry pieces of the C7 end-to-end run: a request-header type
with a RequestServerVersion child carrying a Version attribute. -/
def c7StrT : EwsType := { name := "StringType", isSimple := true, simpleType := SimpleKind.str }

def c7RSVT : EwsType :=
  { name := "RequestServerVersionType",
    attributes :=
      [({ xn := "Version", jn := "Version", tn := "StringType" } : AttrDesc)] }

def c7RH : EwsType :=
  { name := "JsonRequestHeaders", jsonType := "JsonRequestHeaders:#Exchange",
    typeByElementName :=
      [("RequestServerVersion",
        ({ jsonName := "RequestServerVersion", typeName := "RequestServerVersionType",
           isList := false } : ElemDesc))] }

def c7ReqT : EwsType := { name := "GetFolderType" }

def c7Op : OpDescriptor :=
  { action := "GetFolder", requestTypeName := "GetFolderType",
    response := { jsonName := "GetFolderResponse" },
    bodyType := "GetFolderRequest:#Exchange",
    requestType := "GetFolderJsonRequest:#Exchange" }

def c7Glob : Globals :=
  { reg := [("StringType", c7StrT), ("RequestServerVersionType", c7RSVT),
      ("JsonRequestHeaders", c7RH), ("GetFolderType", c7ReqT)],
    operations := [("GetFolder", c7Op)],
    soapRequestHeader := c7RH,
    soapResponseHeader := { jsonName := "Header" } }

def c7Toks : List Tok :=
  [Tok.startE "Envelope" [],
   Tok.startE "Header" [],
   Tok.startE "RequestServerVersion"
     [({ space := "", localName := "Version", value := "Exchange2010_SP2" } : XAttr)],
   Tok.endE "RequestServerVersion",
   Tok.endE "Header",
   Tok.startE "Body" [],
   Tok.startE "GetFolder" [],
   Tok.endE "GetFolder",
   Tok.endE "Body",
   Tok.endE "Envelope"]

/-- A request with no Header element at all (GetFolder body only). -/
def c6NoHeaderToks : List Tok :=
  [Tok.startE "Envelope" [],
   Tok.startE "Body" [],
   Tok.startE "GetFolder" [],
   Tok.endE "GetFolder",
   Tok.endE "Body",
   Tok.endE "Envelope"]

def c6RestToks : List Tok :=
  [Tok.startE "Body" [], Tok.startE "GetFolder" [], Tok.endE "GetFolder",
   Tok.endE "Body", Tok.endE "Envelope"]

def c6Msg : SoapJsonMsg :=
  { msgType := "GetFolderJsonRequest:#Exchange", header := some synthHeader,
    body := none }

/-- XML subtrees, used to describe well-formed token streams. -/
inductive XTree where
  | elem (name : String) (attrs : List XAttr) (children : List XTree)
  | text (s : String)

mutual

/-- Flatten a subtree into the token stream the decoder would produce. -/
def flat : XTree → List Tok
  | XTree.elem n a cs => Tok.startE n a :: (flatL cs ++ [Tok.endE n])
  | XTree.text s => [Tok.chardata s]

def flatL : List XTree → List Tok
  | [] => []
  | t :: ts => flat t ++ flatL ts

end

/-- The direct child is a Header or Body element. -/
def isHB : XTree → Bool
  | XTree.elem n _ _ => n == "Header" || n == "Body"
  | XTree.text _ => false

/-- Number of direct children that are elements with the given name. -/
def countName (n : String) : List XTree → Nat
  | [] => 0
  | XTree.elem m _ _ :: rest => (if m = n then 1 else 0) + countName n rest
  | XTree.text _ :: rest => countName n rest

/-- Two Header elements before the Body, for the concrete multiple-header
error. -/
def c10TwoHeaders : List Tok :=
  [Tok.startE "Envelope" [], Tok.startE "Header" [], Tok.endE "Header",
   Tok.startE "Header" [], Tok.endE "Header", Tok.startE "Body" [],
   Tok.startE "GetFolder" [], Tok.endE "GetFolder", Tok.endE "Body",
   Tok.endE "Envelope"]

/-- Two Body elements, for the concrete multiple-body error. -/
def c10TwoBodies : List Tok :=
  [Tok.startE "Envelope" [], Tok.startE "Body" [], Tok.startE "GetFolder" [],
   Tok.endE "GetFolder", Tok.endE "Body", Tok.startE "Body" [],
   Tok.startE "GetFolder" [], Tok.endE "GetFolder", Tok.endE "Body",
   Tok.endE "Envelope"]

def c10Trees : List XTree :=
  [XTree.elem "Header" [] [], XTree.elem "Header" [] [], XTree.elem "Body" [] []]

/-- An error is well-formed for the strictness claim when every
extra-elements error inside it carries a nonempty leftover key list. -/
def goodErr : Err → Prop
  | Err.extraElements _ ks => ks ≠ []
  | Err.wrap _ e => goodErr e
  | _ => True

def goodFail : Fail → Prop
  | Fail.err e => goodErr e
  | _ => True

def goodRes {α : Type} : Res α → Prop
  | Except.error f => goodFail f
  | Except.ok _ => True

def c5T : EwsType := { name := "C5T" }

def c5G : Globals :=
  { reg := [("C5T", c5T)], operations := [],
    soapRequestHeader := { name := "RH" },
    soapResponseHeader := { jsonName := "Header" } }

def c5E : EwsJsonElement :=
  { jsonName := "C5", singleType := some { typeName := "C5T", xmlTag := "t:C5" } }

/-- A response wrapper type declaring one child X whose type TX declares
no child elements at all (in particular no Items). -/
def stampRespT : EwsType :=
  { name := "RespT",
    typeByElementName :=
      [("X", ({ jsonName := "X", typeName := "TX", isList := false } : ElemDesc))] }

def stampTX : EwsType := { name := "TX" }

def stampGlobals : Globals :=
  { reg := [("RespT", stampRespT), ("TX", stampTX)], operations := [],
    soapRequestHeader := { name := "RH" },
    soapResponseHeader := { jsonName := "Header" } }

def stampRespElem : EwsJsonElement :=
  { jsonName := "FindItemResponse",
    singleType := some { typeName := "RespT", xmlTag := "m:FindItemResponse" } }

def stampOp : OpDescriptor :=
  { action := "FindItem", requestTypeName := "ReqT",
    response := stampRespElem,
    bodyType := "FindItemJsonRequest:#Exchange",
    requestType := "FindItemJsonRequest:#Exchange" }

/-- C8: number-kind character data is stored verbatim as `json.Number`
(no narrowing), and `toString` returns a `json.Number`'s lexical digits
byte-for-byte, so numeric values round-trip lexically through both
translation directions. -/
theorem numbers_preserve_lexical_form (typ : EwsType) (s : String)
    (h : typ.simpleType = SimpleKind.num) :
    convertSimpleToJson typ s = Json.num s ∧
    toString (Json.num s) = Except.ok s ∧
    toString (convertSimpleToJson typ s) = Except.ok s := by
  constructor
  · simp [convertSimpleToJson, h]
  · constructor
    · rfl
    · simp [convertSimpleToJson, h, toString]

/-- Witness for C8 at a concrete number-kind type and a lexical form that a
float narrowing would destroy. -/
theorem numbers_preserve_lexical_form_witness :
    ({ name := "NumT", isSimple := true, simpleType := SimpleKind.num } : EwsType).simpleType
        = SimpleKind.num ∧
    convertSimpleToJson { name := "NumT", isSimple := true, simpleType := SimpleKind.num }
        "123456789012345678901234567890.1" = Json.num "123456789012345678901234567890.1" :=
  ⟨rfl, (numbers_preserve_lexical_form
      { name := "NumT", isSimple := true, simpleType := SimpleKind.num }
      "123456789012345678901234567890.1" rfl).1⟩

lemma firstIdx_get (l : List String) (x : String) (i : Nat)
    (h : firstIdx l x = some i) : l.get? i = some x := by
  induction l generalizing i with
  | nil => simp [firstIdx] at h
  | cons y rest ih =>
      by_cases hy : y = x
      · simp [firstIdx, hy] at h
        subst h
        simp [hy]
      · simp [firstIdx, hy] at h
        obtain ⟨j, hj, hji⟩ := h
        subst hji
        simpa using ih j hj

lemma firstIdx_least (l : List String) (x : String) (i : Nat)
    (h : firstIdx l x = some i) : ∀ j : Nat, j < i → l.get? j ≠ some x := by
  induction l generalizing i with
  | nil => simp [firstIdx] at h
  | cons y rest ih =>
      intro j hj
      by_cases hy : y = x
      · simp [firstIdx, hy] at h
        omega
      · simp [firstIdx, hy] at h
        obtain ⟨i', hi', hii⟩ := h
        subst hii
        cases j with
        | zero => simp [hy]
        | succ j' => simpa using ih i' hi' j' (by omega)

lemma firstIdx_none (l : List String) (x : String) (hx : x ∉ l) :
    firstIdx l x = none := by
  induction l with
  | nil => rfl
  | cons y rest ih =>
      have hy : y ≠ x := fun hc => hx (by simp [hc])
      have hrest : x ∉ rest := fun hc => hx (by simp [hc])
      simp [firstIdx, hy, ih hrest]

/-- C9: during XML→JSON conversion of an enum-kind simple type, character
data matching a label converts to the first matching index, and character
data matching no label passes through as the raw string. -/
theorem enum_chardata_conversion (typ : EwsType) (s : String)
    (h : typ.simpleType = SimpleKind.enum) :
    (∀ i : Nat, firstIdx typ.enumValues s = some i →
        convertSimpleToJson typ s = Json.int i ∧
        typ.enumValues.get? i = some s ∧
        (∀ j : Nat, j < i → typ.enumValues.get? j ≠ some s)) ∧
    (s ∉ typ.enumValues → convertSimpleToJson typ s = Json.str s) := by
  constructor
  · intro i hi
    exact ⟨by simp [convertSimpleToJson, h, hi],
      firstIdx_get typ.enumValues s i hi,
      firstIdx_least typ.enumValues s i hi⟩
  · intro hs
    have : firstIdx typ.enumValues s = none := firstIdx_none typ.enumValues s hs
    simp [convertSimpleToJson, h, this]

--

-- C4 (enum scalar indices during JSON→SOAP)

--

/-- C4: the enum scalar branch of processJson indexes EnumValues without a
bounds check: a JSON integer index out of range of the label list causes a
Go runtime panic (index out of range), not a returned error; an in-range
index emits the label at that index. -/
theorem enum_out_of_range_panics :
    processJson enumScalarGlobals 10 (Json.num "5") enumScalarDesc =
      Except.error (Fail.crash "index out of range") ∧
    processJson enumScalarGlobals 10 (Json.num "-1") enumScalarDesc =
      Except.error (Fail.crash "index out of range") ∧
    processJson enumScalarGlobals 10 (Json.num "1") enumScalarDesc =
      Except.ok [XmlEvt.startE "t:BasePoint" [], XmlEvt.chardata "End",
        XmlEvt.endE "t:BasePoint"] := by
  refine ⟨rfl, rfl, rfl⟩

--

-- C3 (bitfield-encoded enum lists)

--

lemma res_ok_bind {α β : Type} (a : α) (f : α → Res β) :
    ((Except.ok a : Res α) >>= f) = f a := rfl

lemma res_error_bind {α β : Type} (e : Fail) (f : α → Res β) :
    ((Except.error e : Res α) >>= f) = Except.error e := rfl

lemma res_map_ok {α β : Type} (a : α) (f : α → β) :
    (Except.ok a : Res α).map f = Except.ok (f a) := rfl

lemma res_map_error {α β : Type} (e : Fail) (f : α → β) :
    (Except.error e : Res α).map f = Except.error e := rfl

lemma wrapRes_ok {α : Type} (ctx : String) (a : α) :
    wrapRes ctx (Except.ok a) = Except.ok a := rfl

lemma res_pure {α : Type} (a : α) : (pure a : Res α) = Except.ok a := rfl

lemma enumFrom_selected (bits : Nat) (labels : List String) :
    ∀ k : Nat,
      ((List.enumFrom k labels).filter (fun p => bitTest bits p.1)).map Prod.snd =
        (List.range labels.length).filterMap
          (fun i => if Nat.testBit bits (k + i) then labels.get? i else none) := by
  induction labels with
  | nil => intro k; rfl
  | cons l ls ih =>
      intro k
      simp only [bitTest] at ih ⊢
      simp only [List.enumFrom, List.length_cons, List.range_succ_eq_map,
        List.filterMap_cons, List.filterMap_map, List.filter_cons,
        Nat.add_zero, List.get?_cons_zero]
      cases hb : Nat.testBit bits k with
      | true =>
          simp only [hb, if_true, List.map_cons]
          rw [ih (k + 1)]
          refine congrArg (List.cons l) ?_
          apply List.filterMap_congr
          intro i _
          have h3 : k + 1 + i = k + (i + 1) := by omega
          simp [Function.comp_def, h3]
      | false =>
          simp only [hb, Bool.false_eq_true, if_false]
          rw [ih (k + 1)]
          apply List.filterMap_congr
          intro i _
          have h3 : k + 1 + i = k + (i + 1) := by omega
          simp [Function.comp_def, h3]

/-- The label-selection loop computes exactly the spec-side set: labels
whose bit index is set, in ascending enum order. -/
lemma selectedLabels_eq_spec (labels : List String) (bits : Nat) :
    selectedLabels labels bits = selectedLabelsSpec labels bits := by
  have h := enumFrom_selected bits labels 0
  simpa [selectedLabels, selectedLabelsSpec, List.enum] using h

/-- C3: for a declared child element whose single type is a simple list of
an enum, a JSON integer value emits one XML element whose character data
is the enum labels whose bit index is set in the integer's low 32 bits,
joined by single spaces in ascending enum-index order. -/
theorem bitfield_enum_list (g : Globals) (je : EwsJsonElement)
    (st : EwsJsonTypeRef) (t : EwsType) (lin : String) (lt : EwsType)
    (hst : je.singleType = some st)
    (ht : resolve g.reg st.typeName = some t)
    (hsimple : t.isSimple = true) (hkind : t.simpleType = SimpleKind.list)
    (hlin : t.listItemType = some lin)
    (hlt : resolve g.reg lin = some lt)
    (hlts : lt.isSimple = true) (hltk : lt.simpleType = SimpleKind.enum)
    (v : Json) (s : String) (n : Int)
    (hv : toString v = Except.ok s) (hn : parseAtoi s = some n)
    (rest : List EwsJsonElement) (fuel : Nat) :
    enumListItemType g je = Except.ok (some lt) ∧
    emitEnumList st lt v = Except.ok
      [XmlEvt.startE st.xmlTag [],
       XmlEvt.chardata (String.intercalate " "
         (selectedLabelsSpec lt.enumValues ((n % 4294967296).toNat))),
       XmlEvt.endE st.xmlTag] ∧
    pjRun g (fuel + 1) (PJCall.elems (je :: rest) [(je.jsonName, v)]) =
      (pjRun g fuel (PJCall.elems rest [])).map
        (fun p => ([XmlEvt.startE st.xmlTag [],
          XmlEvt.chardata (String.intercalate " "
            (selectedLabelsSpec lt.enumValues ((n % 4294967296).toNat))),
          XmlEvt.endE st.xmlTag] ++ p.1, p.2)) := by
  have hitem : enumListItemType g je = Except.ok (some lt) := by
    simp [enumListItemType, hst, resolveT, ht, res_ok_bind, hsimple, hkind, hlin,
      hlt, hlts, hltk]
  have hemit : emitEnumList st lt v = Except.ok
      [XmlEvt.startE st.xmlTag [],
       XmlEvt.chardata (String.intercalate " "
         (selectedLabelsSpec lt.enumValues ((n % 4294967296).toNat))),
       XmlEvt.endE st.xmlTag] := by
    simp [emitEnumList, hv, wrapRes, hn, selectedLabels_eq_spec, res_ok_bind]
  refine ⟨hitem, hemit, ?_⟩
  have hget : mget [(je.jsonName, v)] je.jsonName = some v := by simp [mget]
  have hdel : mdel [(je.jsonName, v)] je.jsonName = [] := by simp [mdel]
  simp only [pjRun, hget, hitem, hst, hemit, hdel, res_ok_bind]
  cases h : pjRun g fuel (PJCall.elems rest []) with
  | ok p => simp [h, res_ok_bind, res_map_ok, Except.map]
  | error f => simp [h, res_error_bind, res_map_error, Except.map]

lemma selected_example_text :
    String.intercalate " " (selectedLabelsSpec ["None", "A", "B", "C"]
      (((6 : Int) % 4294967296).toNat)) = "A B" := by decide

/-- Witness for C3: the spec's own example — labels None, A, B, C and JSON
value 6 (bits 1 and 2) emit character data built from labels A and B. -/
theorem bitfield_enum_list_witness :
    emitEnumList exampleSt exampleEnumT (Json.num "6") =
      Except.ok [XmlEvt.startE "t:Importance" [], XmlEvt.chardata "A B",
        XmlEvt.endE "t:Importance"] := by
  have h := (bitfield_enum_list exampleGlobals exampleJe exampleSt exampleListT
    "ImportanceChoicesType" exampleEnumT rfl rfl rfl rfl rfl rfl rfl rfl
    (Json.num "6") "6" 6 rfl rfl [] 0).2.1
  simp only [exampleEnumT, exampleSt] at h
  rw [selected_example_text] at h
  exact h

--

-- C1 (discriminator-first invariant of SOAP→JSON)

--

lemma oset_head (jt : String) (k : String) (v : Json) (o : OrderedObj)
    (h : headIsType jt o) (hk : k ≠ "__type") : headIsType jt (oset o k v) := by
  obtain ⟨r, hr⟩ := h
  subst hr
  refine ⟨oset r k v, ?_⟩
  simp only [oset]
  rw [if_neg (show ¬ "__type" = k from fun hc => hk hc.symm)]

lemma afind_mem (l : List AttrDesc) (xn : String) (ad : AttrDesc)
    (h : afind l xn = some ad) : ad ∈ l := by
  induction l with
  | nil => simp [afind] at h
  | cons a rest ih =>
      by_cases hx : a.xn = xn
      · simp [afind, hx] at h
        simp [h]
      · simp [afind, hx] at h
        exact List.mem_cons_of_mem _ (ih h)

lemma lookupElem_mem (l : List (String × ElemDesc)) (n : String) (d : ElemDesc)
    (h : peRun.lookupElem l n = some d) : ∃ k, (k, d) ∈ l := by
  induction l with
  | nil => simp [peRun.lookupElem] at h
  | cons p rest ih =>
      rcases p with ⟨k, d'⟩
      by_cases hx : k = n
      · simp only [peRun.lookupElem, hx, if_true, Option.some.injEq] at h
        exact ⟨k, by simp [h]⟩
      · simp only [peRun.lookupElem, hx, if_false] at h
        obtain ⟨k', hk'⟩ := ih h
        exact ⟨k', List.mem_cons_of_mem _ hk'⟩

lemma installAttrs_head (reg : Registry) (typ : EwsType) (jt : String)
    (hwf : ∀ a ∈ typ.attributes, a.jn ≠ "__type") :
    ∀ (attrs : List XAttr) (o o' : OrderedObj), headIsType jt o →
      installAttrs reg typ attrs o = Except.ok o' → headIsType jt o' := by
  intro attrs
  induction attrs with
  | nil =>
      intro o o' ho h
      simp [installAttrs] at h
      exact h ▸ ho
  | cons a rest ih =>
      intro o o' ho h
      simp only [installAttrs] at h
      split at h
      · split at h
        case isTrue.h_1 ad hfind =>
          split at h
          case h_1 hres => simp at h
          case h_2 atype hres =>
            exact ih _ _ (oset_head _ _ _ _ ho
              (hwf ad (afind_mem _ _ _ hfind))) h
        case isTrue.h_2 hfind => simp [throwErr] at h
      · exact ih _ _ ho h

lemma applyDefaults_head (jt : String)
    (defaults : List (String × Json)) (hwf : ∀ d ∈ defaults, d.1 ≠ "__type") :
    ∀ o : OrderedObj, headIsType jt o → headIsType jt (applyDefaults defaults o) := by
  induction defaults with
  | nil => intro o ho; exact ho
  | cons d rest ih =>
      intro o ho
      have hd : d.1 ≠ "__type" := hwf d (by simp)
      have hrest : ∀ x ∈ rest, x.1 ≠ "__type" := fun x hx => hwf x (by simp [hx])
      rcases d with ⟨jn, dv⟩
      simp only [applyDefaults]
      refine ih hrest _ ?_
      split
      · exact ho
      · exact oset_head _ _ _ _ ho hd

lemma applyHook_head (jt : String) (h : Option JsonHookId) (o : OrderedObj)
    (ho : headIsType jt o) : headIsType jt (applyHook h o) := by
  cases h with
  | none => exact ho
  | some hk =>
      cases hk
      simp only [applyHook]
      split
      · exact ho
      · exact oset_head _ _ _ _ ho (by decide)

lemma initRetObject_inv (reg : Registry) (attrs : List XAttr) (typ : EwsType)
    (hwf : typWF typ) (hjt : typ.jsonType ≠ "") (st' : PESt)
    (h : initRetObject reg attrs typ = Except.ok st') : stInv typ st' := by
  obtain ⟨hta, hln, hattrs, helems, hdefs⟩ := hwf
  have hcond : (typ.jsonType != "") = true := by simp [bne_iff_ne, hjt]
  have hhead : headIsType typ.jsonType (baseObj typ) := by
    unfold baseObj
    rw [if_pos hcond]
    exact ⟨[], rfl⟩
  simp only [initRetObject] at h
  split at h
  · split at h
    · split at h
      · simp [throwErr] at h
      · split at h
        · simp only [Except.ok.injEq] at h
          subst h
          constructor
          · intro o ho
            simp only [Option.some.injEq] at ho
            subst ho
            exact oset_head _ _ _ _ hhead hln
          · intro v hv ms
            simp at hv
        · simp only [Except.ok.injEq] at h
          subst h
          exact ⟨fun o ho => by simp at ho, fun v hv ms => by simp at hv⟩
    · cases hia : installAttrs reg typ attrs (baseObj typ) with
      | ok o1 =>
          rw [hia] at h
          simp only [Except.map, Except.ok.injEq] at h
          subst h
          constructor
          · intro o ho
            simp only [Option.some.injEq] at ho
            subst ho
            exact installAttrs_head reg typ _ hattrs attrs _ _ hhead hia
          · intro v hv ms
            simp at hv
      | error f =>
          rw [hia] at h
          simp [Except.map] at h
  · simp only [Except.ok.injEq] at h
    subst h
    exact ⟨fun o ho => by simp at ho, fun v hv ms => by simp at hv⟩

lemma ensureInit_inv (reg : Registry) (attrs : List XAttr) (typ : EwsType)
    (hwf : typWF typ) (hjt : typ.jsonType ≠ "") (st st' : PESt)
    (hst : stInv typ st) (h : ensureInit reg attrs typ st = Except.ok st') :
    stInv typ st' := by
  simp only [ensureInit] at h
  split at h
  · exact initRetObject_inv reg attrs typ hwf hjt st' h
  · simp only [Except.ok.injEq] at h
    exact h ▸ hst

lemma installChild_inv (typ : EwsType) (ne : ElemDesc) (ct : EwsType)
    (item : Option Json) (st st2 : PESt)
    (hwf : typWF typ) (hne : ne.jsonName ≠ "__type")
    (hst : stInv typ st) (h : installChild typ ne ct item st = Except.ok st2) :
    stInv typ st2 := by
  obtain ⟨hta, hln, hattrs, helems, hdefs⟩ := hwf
  obtain ⟨hobj, hscal⟩ := hst
  simp only [installChild] at h
  split at h
  · split at h
    · simp at h
    · next o ho =>
        simp only [Except.ok.injEq] at h
        subst h
        refine ⟨?_, hscal⟩
        intro o' ho'
        simp only [Option.some.injEq] at ho'
        subst ho'
        exact oset_head _ _ _ _ (hobj o ho) hln
  · split at h
    · simp only [Except.ok.injEq] at h
      subst h
      exact ⟨hobj, fun v hv ms => by simp at hv⟩
    · split at h
      · split at h
        · simp at h
        · next o ho =>
            split at h
            · simp only [Except.ok.injEq] at h
              subst h
              refine ⟨?_, hscal⟩
              intro o' ho'
              simp only [Option.some.injEq] at ho'
              subst ho'
              exact oset_head _ _ _ _ (hobj o ho) hne
            · simp [throwErr] at h
            · simp only [Except.ok.injEq] at h
              subst h
              refine ⟨?_, hscal⟩
              intro o' ho'
              simp only [Option.some.injEq] at ho'
              subst ho'
              exact oset_head _ _ _ _ (hobj o ho) hne
      · split at h
        · simp at h
        · next o ho =>
            split at h
            · simp only [Except.ok.injEq] at h
              subst h
              refine ⟨?_, hscal⟩
              intro o' ho'
              simp only [Option.some.injEq] at ho'
              subst ho'
              exact oset_head _ _ _ _ (hobj o ho) hne
            · simp [throwErr] at h

lemma convertSimple_not_obj (t : EwsType) (s : String) (ms : List (String × Json)) :
    convertSimpleToJson t s ≠ Json.obj ms := by
  simp only [convertSimpleToJson]
  split
  · simp
  · simp
  · split <;> simp
  · simp

/-- The discriminator-first invariant of the processElement loop: a
successful run that yields a JSON object puts the type's discriminator
first. -/
lemma peRun_objHead (glob : Globals) :
    ∀ (fuel : Nat) (elAttrs : List XAttr) (typ : EwsType) (st : PESt) (ts : List Tok)
      (ms : List (String × Json)) (rest : List Tok),
      typWF typ → typ.jsonType ≠ "" → stInv typ st →
      peRun glob fuel elAttrs typ st ts = Except.ok (some (Json.obj ms), rest) →
      headIsType typ.jsonType ms := by
  intro fuel
  induction fuel with
  | zero => intro _ _ _ _ _ _ _ _ _ h; simp [peRun] at h
  | succ fuel ih =>
      intro elAttrs typ st ts ms rest hwf hjt hst h
      match ts with
      | [] => simp [peRun, throwErr] at h
      | Tok.startE childName childAttrs :: ts' =>
          simp only [peRun] at h
          cases hinit : ensureInit glob.reg elAttrs typ st with
          | error f => rw [hinit] at h; simp [res_error_bind] at h
          | ok st1 =>
              rw [hinit] at h
              simp only [res_ok_bind] at h
              have hst1 := ensureInit_inv glob.reg elAttrs typ hwf hjt st st1 hst hinit
              split at h
              next => simp [throwErr] at h
              next ne hle =>
                split at h
                next => simp [throwErr] at h
                next ct hres =>
                  have hne : ne.jsonName ≠ "__type" := by
                    obtain ⟨k, hk⟩ := lookupElem_mem _ _ _ hle
                    exact hwf.2.2.2.1 (k, ne) hk
                  split at h
                  · cases hrec : peRun glob fuel childAttrs ct
                        { obj := none, list := none, ret := RetVal.nil } ts' with
                    | error f => rw [hrec] at h; simp [res_error_bind] at h
                    | ok pr =>
                        rw [hrec] at h
                        simp only [res_ok_bind] at h
                        cases hic : installChild typ ne ct pr.1 st1 with
                        | error f => rw [hic] at h; simp [res_error_bind] at h
                        | ok st2 =>
                            rw [hic] at h
                            simp only [res_ok_bind] at h
                            exact ih elAttrs typ st2 pr.2 ms rest hwf hjt
                              (installChild_inv typ ne ct pr.1 st1 st2 hwf hne hst1 hic) h
                  · cases hci : initRetObject glob.reg childAttrs ct with
                    | error f => rw [hci] at h; simp [res_error_bind] at h
                    | ok y =>
                        rw [hci] at h
                        simp only [res_ok_bind] at h
                        cases hrec : peRun glob fuel childAttrs ct y ts' with
                        | error f => rw [hrec] at h; simp [res_error_bind] at h
                        | ok pr =>
                            rw [hrec] at h
                            simp only [res_ok_bind] at h
                            cases hic : installChild typ ne ct pr.1 st1 with
                            | error f => rw [hic] at h; simp [res_error_bind] at h
                            | ok st2 =>
                                rw [hic] at h
                                simp only [res_ok_bind] at h
                                exact ih elAttrs typ st2 pr.2 ms rest hwf hjt
                                  (installChild_inv typ ne ct pr.1 st1 st2 hwf hne
                                    hst1 hic) h
      | Tok.chardata sdata :: ts' =>
          simp only [peRun] at h
          by_cases htrim : trimGo sdata = ""
          · rw [if_pos htrim] at h
            exact ih elAttrs typ st ts' ms rest hwf hjt hst h
          · rw [if_neg htrim] at h
            cases hinit : ensureInit glob.reg elAttrs typ st with
            | error f => rw [hinit] at h; simp [res_error_bind] at h
            | ok st1 =>
                rw [hinit] at h
                simp only [res_ok_bind] at h
                have hst1 := ensureInit_inv glob.reg elAttrs typ hwf hjt st st1 hst hinit
                by_cases hta : typ.textAttr = ""
                · rw [if_neg (by simp [hta])] at h
                  have hinv : stInv typ { st1 with
                      ret := RetVal.scal (convertSimpleToJson typ (trimGo sdata)) } := by
                    refine ⟨hst1.1, ?_⟩
                    intro v hv ms'
                    simp only [RetVal.scal.injEq] at hv
                    exact hv ▸ convertSimple_not_obj typ (trimGo sdata) ms'
                  exact ih elAttrs typ _ ts' ms rest hwf hjt hinv h
                · rw [if_pos (by simp [hta])] at h
                  split at h
                  next ho => simp at h
                  next o ho =>
                    have hinv : stInv typ { st1 with
                        obj := some (oset o typ.textAttr (convertSimpleToJson typ (trimGo sdata)))
                        ret := RetVal.toObj } := by
                      refine ⟨?_, ?_⟩
                      · intro o' ho'
                        simp only [Option.some.injEq] at ho'
                        subst ho'
                        exact oset_head _ _ _ _ (hst1.1 o ho) hwf.1
                      · intro v hv ms'
                        simp at hv
                    exact ih elAttrs typ _ ts' ms rest hwf hjt hinv h
      | Tok.endE n :: ts' =>
          simp only [peRun] at h
          cases hret : st.ret with
          | toObj =>
              rw [hret] at h
              cases ho : st.obj with
              | none => rw [ho] at h; simp at h
              | some o =>
                  rw [ho] at h
                  simp only [Except.ok.injEq, Prod.mk.injEq, Option.some.injEq] at h
                  have : Json.obj (applyHook typ.jsonHook
                      (applyDefaults typ.jsonDefaults o)) = Json.obj ms := h.1
                  simp only [Json.obj.injEq] at this
                  rw [← this]
                  exact applyHook_head _ _ _
                    (applyDefaults_head _ _ hwf.2.2.2.2 _ (hst.1 o ho))
          | nil => rw [hret] at h; simp at h
          | listVal l => rw [hret] at h; simp at h
          | scal v =>
              rw [hret] at h
              simp only [Except.ok.injEq, Prod.mk.injEq, Option.some.injEq] at h
              exact absurd h.1 (hst.2 v hret ms)
      | Tok.other :: ts' =>
          simp only [peRun] at h
          exact ih elAttrs typ st ts' ms rest hwf hjt hst h

/-- C1: a type with a nonempty JSON discriminator always yields objects
whose first key is `__type` with that discriminator (processElement);
scalar leaves are never objects, so they carry no discriminator; and
processSoapElement prepends the body discriminator at position zero or
replaces an existing first `__type` entry. -/
theorem discriminator_first (glob : Globals) (fuel : Nat) (elAttrs : List XAttr)
    (typ : EwsType) (ts : List Tok) (ms : List (String × Json)) (rest : List Tok)
    (hwf : typWF typ) (hjt : typ.jsonType ≠ "") :
    (processElement glob fuel elAttrs (some typ) ts = Except.ok (some (Json.obj ms), rest) →
      ∃ r, ms = ("__type", Json.str typ.jsonType) :: r) ∧
    (∀ (t : EwsType) (s : String) (ms' : List (String × Json)),
      convertSimpleToJson t s ≠ Json.obj ms') ∧
    (∀ (jt : String) (o : OrderedObj), jt ≠ "" →
      (setTypeHint jt o).head? = some ("__type", Json.str jt) ∧
      (∀ k v r, o = (k, v) :: r → k ≠ "__type" →
        setTypeHint jt o = ("__type", Json.str jt) :: o) ∧
      (∀ v r, o = ("__type", v) :: r →
        setTypeHint jt o = ("__type", Json.str jt) :: r)) ∧
    (∀ (elName : String) (typ2 : Option EwsType) (jt : String) (o : OrderedObj)
      (rest2 : List Tok), jt ≠ "" →
      processSoapElement glob fuel elName elAttrs typ2 jt ts = Except.ok (some o, rest2) →
      o.head? = some ("__type", Json.str jt)) := by
  refine ⟨?_, convertSimple_not_obj, ?_, ?_⟩
  · intro h
    simp only [processElement] at h
    split at h
    · simp only [res_ok_bind] at h
      refine peRun_objHead glob fuel elAttrs typ _ ts ms rest hwf hjt ?_ h
      exact ⟨fun o ho => by simp at ho, fun v hv ms' => by simp at hv⟩
    · cases hci : initRetObject glob.reg elAttrs typ with
      | error f => rw [hci] at h; simp [res_error_bind] at h
      | ok st0 =>
          rw [hci] at h
          simp only [res_ok_bind] at h
          exact peRun_objHead glob fuel elAttrs typ st0 ts ms rest hwf hjt
            (initRetObject_inv glob.reg elAttrs typ hwf hjt st0 hci) h
  · intro jt o hne
    refine ⟨?_, ?_, ?_⟩
    · simp only [setTypeHint, if_neg hne]
      match o with
      | [] => rfl
      | (k, v) :: r =>
          by_cases hk : k = "__type" <;> simp [hk]
    · intro k v r ho hk
      subst ho
      simp [setTypeHint, if_neg hne, hk]
    · intro v r ho
      subst ho
      simp [setTypeHint, if_neg hne]
  · intro elName typ2 jt o rest2 hne h
    simp only [processSoapElement] at h
    cases hpe : processElement glob fuel elAttrs typ2 ts with
    | error f => rw [hpe] at h; simp [res_error_bind] at h
    | ok pr =>
        rw [hpe] at h
        simp only [res_ok_bind] at h
        rcases pr with ⟨anyElem, prrest⟩
        cases anyElem with
        | none => simp at h
        | some j =>
            cases j with
            | obj oo =>
                simp only [Except.ok.injEq, Prod.mk.injEq, Option.some.injEq] at h
                rw [← h.1]
                simp only [setTypeHint, if_neg hne]
                match oo with
                | [] => rfl
                | (k, v) :: r => by_cases hk : k = "__type" <;> simp [hk]
            | bool b => simp [throwErr] at h
            | num s => simp [throwErr] at h
            | str s => simp [throwErr] at h
            | int n => simp [throwErr] at h
            | null => simp [throwErr] at h
            | arr l => simp [throwErr] at h

/-- Witness for C1: a concrete folder element translates to an object
whose first key is the discriminator. -/
theorem discriminator_first_witness :
    typWF c1Typ ∧ c1Typ.jsonType ≠ "" ∧
    processElement c1Glob 10 [] (some c1Typ) c1Toks =
      Except.ok (some (Json.obj c1Obj), []) ∧
    (∃ r, c1Obj = ("__type", Json.str "Folder:#Exchange") :: r) := by
  have hwf : typWF c1Typ := by
    refine ⟨by decide, by decide, ?_, ?_, ?_⟩ <;> decide
  have hjt : c1Typ.jsonType ≠ "" := by decide
  refine ⟨hwf, hjt, rfl, ?_⟩
  exact (discriminator_first c1Glob 10 [] c1Typ c1Toks c1Obj [] hwf hjt).1 rfl

--

-- C7 (request server version upgrade)

--

/-- C7: a RequestServerVersion whose Version string starts with
Exchange2007 or Exchange2010 is rewritten to Exchange2013 in the emitted
JSON header; any other Version string is left as it is; SOAP2JSON applies
this fixup to every request header member, and an end-to-end run on an
Exchange2010_SP2 request emits Exchange2013. -/
theorem version_upgrade (s : String) (h : OrderedObj) (ms : OrderedObj) (ver : String) :
    ((goHasPrefix s "Exchange2007" ∨ goHasPrefix s "Exchange2010") →
      upgradeVersion s = "Exchange2013") ∧
    (¬(goHasPrefix s "Exchange2007" ∨ goHasPrefix s "Exchange2010") →
      upgradeVersion s = s) ∧
    (∀ k v, k ≠ "RequestServerVersion" → fixupMember k v = v) ∧
    (lastStringVersion ms = some ver →
      fixupMember "RequestServerVersion" (Json.obj ms) = Json.str (upgradeVersion ver)) ∧
    fixupHeader h = h.map (fun kv => (kv.1, fixupMember kv.1 kv.2)) ∧
    (SOAP2JSON c7Glob 20 c7Toks).map (fun p => p.1.header) =
      Except.ok (some [("__type", Json.str "JsonRequestHeaders:#Exchange"),
        ("RequestServerVersion", Json.str "Exchange2013")]) := by
  refine ⟨?_, ?_, ?_, ?_, rfl, rfl⟩
  · intro hs
    rcases hs with hs | hs <;> simp [upgradeVersion, hs]
  · intro hs
    rw [not_or] at hs
    simp only [upgradeVersion, Bool.or_eq_true]
    rw [if_neg]
    simp only [Bool.or_eq_true, not_or]
    exact ⟨by simpa using hs.1, by simpa using hs.2⟩
  · intro k v hk
    simp [fixupMember, hk]
  · intro hv
    simp [fixupMember, hv]

/-- Witness for C7: the two directions of the version rewrite at concrete
strings. -/
theorem version_upgrade_witness :
    upgradeVersion "Exchange2010_SP2" = "Exchange2013" ∧
    upgradeVersion "Exchange2016" = "Exchange2016" ∧
    lastStringVersion [("Version", Json.str "Exchange2010_SP2")] =
      some "Exchange2010_SP2" ∧
    fixupMember "RequestServerVersion"
        (Json.obj [("Version", Json.str "Exchange2010_SP2")]) =
      Json.str "Exchange2013" := by
  refine ⟨?_, ?_, rfl, ?_⟩
  · exact (version_upgrade "Exchange2010_SP2" [] [] "").1 (Or.inr (by decide))
  · exact (version_upgrade "Exchange2016" [] [] "").2.1 (by decide)
  · exact (version_upgrade "" [] [("Version", Json.str "Exchange2010_SP2")]
      "Exchange2010_SP2").2.2.2.1 rfl |>.trans (by rw [(version_upgrade
      "Exchange2010_SP2" [] [] "").1 (Or.inr (by decide))])

--

-- C6 (missing / empty SOAP header)

--

/-- Counterexample to C6: a SOAP request with no Header element does not
succeed — after the body is consumed the loop still waits for a Header,
meets the Envelope end element, and SOAP2JSON returns an error instead of
synthesizing a header. -/
theorem no_header_fails_counterexample :
    SOAP2JSON c7Glob 10 c6NoHeaderToks =
      Except.error (Fail.err Err.unexpectedWantedStart) := rfl

/-- Once the loop has consumed a header, the final header is never
reassigned. -/
lemma soapLoop_header_stable (glob : Globals) :
    ∀ (fuel : Nat) (gB : Bool) (hdr bdy : Option OrderedObj) (op : Option OpDescriptor)
      (mt : String) (ts : List Tok)
      (out : Option OrderedObj × Option OrderedObj × Option OpDescriptor × String)
      (rem : List Tok),
      soapLoop glob fuel true gB hdr bdy op mt ts = Except.ok (out, rem) →
      out.1 = hdr := by
  intro fuel
  induction fuel with
  | zero => intro gB hdr bdy op mt ts out rem h; simp [soapLoop] at h
  | succ fuel ih =>
      intro gB hdr bdy op mt ts out rem h
      simp only [soapLoop] at h
      cases gB with
      | true =>
          simp only [Bool.and_self, if_true, Except.ok.injEq, Prod.mk.injEq] at h
          rw [← h.1]
      | false =>
          simp only [Bool.and_false, Bool.false_eq_true, if_false] at h
          cases hge : getNextElement true ts with
          | error f => rw [hge] at h; simp [res_error_bind] at h
          | ok pr =>
              rw [hge] at h
              simp only [res_ok_bind] at h
              split at h
              next nm elAttrs heq =>
                by_cases hnm : nm = "Header"
                · rw [if_pos hnm] at h
                  simp [throwErr] at h
                · rw [if_neg hnm] at h
                  by_cases hb : nm = "Body"
                  · rw [if_pos hb] at h
                    cases hg2 : getNextElement true pr.2 with
                    | error f => rw [hg2] at h; simp [res_error_bind] at h
                    | ok pr2 =>
                        rw [hg2] at h
                        simp only [res_ok_bind] at h
                        split at h
                        next actName actAttrs heq2 =>
                          split at h
                          next => simp [throwErr] at h
                          next opd hop =>
                            cases hps : processSoapElement glob fuel actName actAttrs
                                (resolve glob.reg opd.requestTypeName) opd.bodyType pr2.2 with
                            | error f => rw [hps] at h; simp [res_error_bind] at h
                            | ok pr3 =>
                                rw [hps] at h
                                simp only [res_ok_bind] at h
                                cases hg3 : getNextElement false pr3.2 with
                                | error f => rw [hg3] at h; simp [res_error_bind] at h
                                | ok pr4 =>
                                    rw [hg3] at h
                                    simp only [res_ok_bind] at h
                                    exact ih true hdr pr3.1 (some opd) opd.requestType
                                      pr4.2 out rem h
                        next => simp at h
                  · rw [if_neg hb] at h
                    exact ih false hdr bdy op mt pr.2 out rem h
              next => simp at h

/-- C6 amended: when the Header element is present but empty (it
translates to nothing), the emitted message carries the synthesized
header. -/
theorem empty_header_synthesized (glob : Globals) (fuel : Nat) (envAttrs : List XAttr)
    (rest : List Tok) (msg : SoapJsonMsg) (op : Option OpDescriptor)
    (h : SOAP2JSON glob fuel
      (Tok.startE "Envelope" envAttrs :: Tok.startE "Header" [] ::
        Tok.endE "Header" :: rest) = Except.ok (msg, op)) :
    msg.header = some synthHeader := by
  simp only [SOAP2JSON, getNextElement, if_true, res_ok_bind] at h
  rw [if_neg (by decide)] at h
  match fuel, h with
  | 0, h => simp [soapLoop, res_error_bind] at h
  | fuel + 1, h =>
      simp only [soapLoop, Bool.and_false, Bool.false_eq_true, if_false,
        getNextElement, if_true, res_ok_bind] at h
      match fuel, h with
      | 0, h =>
          simp [processSoapElement, processElement, peRun, res_error_bind,
            res_ok_bind] at h
      | fuel + 1, h =>
          have hps : processSoapElement glob (fuel + 1) "Header" []
              (some glob.soapRequestHeader) glob.soapRequestHeader.jsonType
              (Tok.endE "Header" :: rest) = Except.ok (none, rest) := by
            simp [processSoapElement, processElement, peRun, res_ok_bind]
          rw [hps] at h
          simp only [res_ok_bind] at h
          cases hsl : soapLoop glob (fuel + 1) true false (some synthHeader) none
              none "" rest with
          | error f => rw [hsl] at h; simp [res_error_bind] at h
          | ok pr =>
              rw [hsl] at h
              simp only [res_ok_bind] at h
              cases hg : getNextElement false pr.2 with
              | error f => rw [hg] at h; simp [res_error_bind] at h
              | ok pr2 =>
                  rw [hg] at h
                  simp only [res_ok_bind, Except.ok.injEq, Prod.mk.injEq] at h
                  have hh := soapLoop_header_stable glob (fuel + 1) false
                    (some synthHeader) none none "" rest pr.1 pr.2
                    (by rw [← hsl])
                  rw [← h.1, ← hh]

/-- Witness for the amended C6: a concrete GetFolder request with an empty
Header element succeeds and the message carries exactly the synthesized
header. -/
theorem empty_header_synthesized_witness :
    SOAP2JSON c7Glob 10
      (Tok.startE "Envelope" [] :: Tok.startE "Header" [] :: Tok.endE "Header" ::
        c6RestToks) =
      Except.ok (c6Msg, some c7Op) ∧
    (∀ (msg : SoapJsonMsg) (op : Option OpDescriptor),
      SOAP2JSON c7Glob 10
        (Tok.startE "Envelope" [] :: Tok.startE "Header" [] :: Tok.endE "Header" ::
          c6RestToks) = Except.ok (msg, op) →
      msg.header = some synthHeader) := by
  constructor
  · rfl
  · intro msg op h
    exact empty_header_synthesized c7Glob 10 [] c6RestToks msg op h

--

-- C10 (multiple Header / Body elements under Envelope)

--

lemma getNextEnd_consume (n : String) :
    ∀ (cs : List XTree) (rest : List Tok),
      (∃ f, getNextElement false (flatL cs ++ Tok.endE n :: rest) = Except.error f) ∨
      getNextElement false (flatL cs ++ Tok.endE n :: rest) =
        Except.ok (Tok.endE n, rest) := by
  intro cs
  induction cs with
  | nil => intro rest; right; rfl
  | cons t ts ih =>
      intro rest
      cases t with
      | text s =>
          have hshape : flatL (XTree.text s :: ts) ++ Tok.endE n :: rest =
              Tok.chardata s :: (flatL ts ++ Tok.endE n :: rest) := by
            simp [flatL, flat]
          rw [hshape]
          exact ih rest
      | elem nm a kids =>
          left
          refine ⟨Fail.err Err.unexpectedWantedEnd, ?_⟩
          have hshape : flatL (XTree.elem nm a kids :: ts) ++ Tok.endE n :: rest =
              Tok.startE nm a :: ((flatL kids ++ [Tok.endE nm]) ++
                (flatL ts ++ Tok.endE n :: rest)) := by
            simp [flatL, flat]
          rw [hshape]
          rfl

lemma getNextStart_consume (n : String) :
    ∀ (cs : List XTree) (rest : List Tok),
      (∃ f, getNextElement true (flatL cs ++ Tok.endE n :: rest) = Except.error f) ∨
      (∃ nm a kids cs',
        getNextElement true (flatL cs ++ Tok.endE n :: rest) =
          Except.ok (Tok.startE nm a,
            flatL kids ++ Tok.endE nm :: (flatL cs' ++ Tok.endE n :: rest))) := by
  intro cs
  induction cs with
  | nil =>
      intro rest
      left
      exact ⟨Fail.err Err.unexpectedWantedStart, rfl⟩
  | cons t ts ih =>
      intro rest
      cases t with
      | text s =>
          have hshape : flatL (XTree.text s :: ts) ++ Tok.endE n :: rest =
              Tok.chardata s :: (flatL ts ++ Tok.endE n :: rest) := by
            simp [flatL, flat]
          rw [hshape]
          exact ih rest
      | elem nm a kids =>
          right
          refine ⟨nm, a, kids, ts, ?_⟩
          have hshape : flatL (XTree.elem nm a kids :: ts) ++ Tok.endE n :: rest =
              Tok.startE nm a :: (flatL kids ++ Tok.endE nm ::
                (flatL ts ++ Tok.endE n :: rest)) := by
            simp [flatL, flat]
          rw [hshape]
          rfl

/-- The processElement loop, run on the flattening of a child list
followed by the matching end element, either fails or consumes exactly
through that end element. -/
lemma peRun_consume (glob : Globals) :
    ∀ (N : Nat) (cs : List XTree), (flatL cs).length ≤ N →
      ∀ (n : String) (rest : List Tok) (fuel : Nat) (elAttrs : List XAttr)
        (typ : EwsType) (st : PESt),
        (∃ f, peRun glob fuel elAttrs typ st (flatL cs ++ Tok.endE n :: rest) =
          Except.error f) ∨
        (∃ v, peRun glob fuel elAttrs typ st (flatL cs ++ Tok.endE n :: rest) =
          Except.ok (v, rest)) := by
  intro N
  induction N using Nat.strong_induction_on with
  | _ N ih =>
      intro cs hlen n rest fuel elAttrs typ st
      match fuel with
      | 0 => exact Or.inl ⟨Fail.fuel, rfl⟩
      | fuel + 1 =>
          match cs, hlen with
          | [], _ =>
              have hshape : flatL ([] : List XTree) ++ Tok.endE n :: rest =
                  Tok.endE n :: rest := by simp [flatL]
              rw [hshape]
              simp only [peRun]
              cases hret : st.ret with
              | toObj =>
                  cases ho : st.obj with
                  | none => exact Or.inl ⟨Fail.crash "nil object", rfl⟩
                  | some o => exact Or.inr ⟨_, rfl⟩
              | nil => exact Or.inr ⟨none, rfl⟩
              | listVal l => exact Or.inr ⟨_, rfl⟩
              | scal v => exact Or.inr ⟨_, rfl⟩
          | XTree.text s :: cs', hlen =>
              have hlen' : (flatL cs').length < N := by
                simp only [flatL, flat, List.length_append, List.length_cons] at hlen ⊢
                omega
              have hshape : flatL (XTree.text s :: cs') ++ Tok.endE n :: rest =
                  Tok.chardata s :: (flatL cs' ++ Tok.endE n :: rest) := by
                simp [flatL, flat]
              rw [hshape]
              simp only [peRun]
              by_cases htrim : trimGo s = ""
              · rw [if_pos htrim]
                exact ih _ hlen' cs' le_rfl n rest fuel elAttrs typ st
              · rw [if_neg htrim]
                cases hinit : ensureInit glob.reg elAttrs typ st with
                | error f =>
                    exact Or.inl ⟨f, rfl⟩
                | ok st1 =>
                    simp only [res_ok_bind]
                    by_cases hta : typ.textAttr = ""
                    · rw [if_neg (by simp [hta])]
                      exact ih _ hlen' cs' le_rfl n rest fuel elAttrs typ _
                    · rw [if_pos (by simp [hta])]
                      cases ho : st1.obj with
                      | none => exact Or.inl ⟨Fail.crash "nil map write", rfl⟩
                      | some o => exact ih _ hlen' cs' le_rfl n rest fuel elAttrs typ _
          | XTree.elem nm a kids :: cs', hlen =>
              have hlenk : (flatL kids).length < N := by
                simp only [flatL, flat, List.length_append, List.length_cons] at hlen ⊢
                omega
              have hlen' : (flatL cs').length < N := by
                simp only [flatL, flat, List.length_append, List.length_cons] at hlen ⊢
                omega
              have hshape : flatL (XTree.elem nm a kids :: cs') ++ Tok.endE n :: rest =
                  Tok.startE nm a :: (flatL kids ++ Tok.endE nm ::
                    (flatL cs' ++ Tok.endE n :: rest)) := by
                simp [flatL, flat]
              rw [hshape]
              simp only [peRun]
              cases hinit : ensureInit glob.reg elAttrs typ st with
              | error f =>
                  exact Or.inl ⟨f, rfl⟩
              | ok st1 =>
                  simp only [res_ok_bind]
                  split
                  next => exact Or.inl ⟨Fail.err (Err.unknownElement nm), rfl⟩
                  next ne hle =>
                    split
                    next => exact Or.inl ⟨Fail.err Err.noTypeInSpec, rfl⟩
                    next ct hres =>
                      by_cases hae : a.isEmpty = true
                      · rw [if_pos hae]
                        rcases ih _ hlenk kids le_rfl nm
                            (flatL cs' ++ Tok.endE n :: rest) fuel a ct
                            { obj := none, list := none, ret := RetVal.nil } with
                          ⟨f, hf⟩ | ⟨v, hv⟩
                        · rw [hf]
                          exact Or.inl ⟨f, rfl⟩
                        · rw [hv]
                          simp only [res_ok_bind]
                          cases hic : installChild typ ne ct v st1 with
                          | error f =>
                              exact Or.inl ⟨f, rfl⟩
                          | ok st2 =>
                              simp only [res_ok_bind]
                              exact ih _ hlen' cs' le_rfl n rest fuel elAttrs typ st2
                      · rw [if_neg hae]
                        cases hci : initRetObject glob.reg a ct with
                        | error f =>
                            exact Or.inl ⟨f, rfl⟩
                        | ok childSt =>
                            simp only [res_ok_bind]
                            rcases ih _ hlenk kids le_rfl nm
                                (flatL cs' ++ Tok.endE n :: rest) fuel a ct childSt with
                              ⟨f, hf⟩ | ⟨v, hv⟩
                            · rw [hf]
                              exact Or.inl ⟨f, rfl⟩
                            · rw [hv]
                              simp only [res_ok_bind]
                              cases hic : installChild typ ne ct v st1 with
                              | error f =>
                                  exact Or.inl ⟨f, rfl⟩
                              | ok st2 =>
                                  simp only [res_ok_bind]
                                  exact ih _ hlen' cs' le_rfl n rest fuel
                                    elAttrs typ st2

/-- processSoapElement on the flattening of an element body either fails
or consumes exactly through the element's end tag. -/
lemma processSoapElement_consume (glob : Globals) (cs : List XTree) (n : String)
    (rest : List Tok) (fuel : Nat) (elName : String) (elAttrs : List XAttr)
    (typ : Option EwsType) (jt : String) :
    (∃ f, processSoapElement glob fuel elName elAttrs typ jt
      (flatL cs ++ Tok.endE n :: rest) = Except.error f) ∨
    (∃ h, processSoapElement glob fuel elName elAttrs typ jt
      (flatL cs ++ Tok.endE n :: rest) = Except.ok (h, rest)) := by
  cases typ with
  | none => exact Or.inl ⟨_, rfl⟩
  | some t =>
      simp only [processSoapElement, processElement]
      by_cases hae : elAttrs.isEmpty = true
      · rw [if_pos hae]
        simp only [res_ok_bind]
        rcases peRun_consume glob (flatL cs).length cs le_rfl n rest fuel elAttrs t
            { obj := none, list := none, ret := RetVal.nil } with ⟨f, hf⟩ | ⟨v, hv⟩
        · rw [hf]
          exact Or.inl ⟨f, rfl⟩
        · rw [hv]
          simp only [res_ok_bind]
          cases v with
          | none => exact Or.inr ⟨_, rfl⟩
          | some j =>
              cases j with
              | obj o => exact Or.inr ⟨_, rfl⟩
              | null => exact Or.inl ⟨_, rfl⟩
              | bool b => exact Or.inl ⟨_, rfl⟩
              | num s => exact Or.inl ⟨_, rfl⟩
              | int i => exact Or.inl ⟨_, rfl⟩
              | str s => exact Or.inl ⟨_, rfl⟩
              | arr l => exact Or.inl ⟨_, rfl⟩
      · rw [if_neg hae]
        cases hci : initRetObject glob.reg elAttrs t with
        | error f => exact Or.inl ⟨f, rfl⟩
        | ok st0 =>
            simp only [res_ok_bind]
            rcases peRun_consume glob (flatL cs).length cs le_rfl n rest fuel
                elAttrs t st0 with ⟨f, hf⟩ | ⟨v, hv⟩
            · rw [hf]
              exact Or.inl ⟨f, rfl⟩
            · rw [hv]
              simp only [res_ok_bind]
              cases v with
              | none => exact Or.inr ⟨_, rfl⟩
              | some j =>
                  cases j with
                  | obj o => exact Or.inr ⟨_, rfl⟩
                  | null => exact Or.inl ⟨_, rfl⟩
                  | bool b => exact Or.inl ⟨_, rfl⟩
                  | num s => exact Or.inl ⟨_, rfl⟩
                  | int i => exact Or.inl ⟨_, rfl⟩
                  | str s => exact Or.inl ⟨_, rfl⟩
                  | arr l => exact Or.inl ⟨_, rfl⟩

/-- The header/body loop on an envelope whose children are all Header or
Body elements: if a Header repeats (or a Body repeats, or one was already
consumed), the loop either errors or exits with unread element children
still in front of the Envelope end tag. -/
lemma soapLoop_dup (glob : Globals) :
    ∀ (cs : List XTree), (∀ t ∈ cs, isHB t = true) →
      ∀ (fuel : Nat) (gH gB : Bool) (hdr bdy : Option OrderedObj)
        (op : Option OpDescriptor) (mt : String) (trailing : List Tok),
      ((gH = true ∧ 1 ≤ countName "Header" cs) ∨
       (gB = true ∧ 1 ≤ countName "Body" cs) ∨
       2 ≤ countName "Header" cs ∨ 2 ≤ countName "Body" cs) →
      (∃ f, soapLoop glob fuel gH gB hdr bdy op mt
          (flatL cs ++ Tok.endE "Envelope" :: trailing) = Except.error f) ∨
      (∃ out cs', cs' ≠ [] ∧ (∀ t ∈ cs', isHB t = true) ∧
        soapLoop glob fuel gH gB hdr bdy op mt
          (flatL cs ++ Tok.endE "Envelope" :: trailing) =
          Except.ok (out, flatL cs' ++ Tok.endE "Envelope" :: trailing)) := by
  intro cs
  induction cs with
  | nil =>
      intro _ fuel gH gB hdr bdy op mt trailing hdup
      exfalso
      simp only [countName] at hdup
      rcases hdup with ⟨_, hc⟩ | ⟨_, hc⟩ | hc | hc <;> omega
  | cons t cs' ih =>
      intro hhb fuel gH gB hdr bdy op mt trailing hdup
      have hhbt := hhb t (by simp)
      have hhb' : ∀ x ∈ cs', isHB x = true := fun x hx => hhb x (by simp [hx])
      cases t with
      | text s => simp [isHB] at hhbt
      | elem nm a kids =>
          have hnm : nm = "Header" ∨ nm = "Body" := by
            simpa [isHB] using hhbt
          match fuel with
          | 0 => exact Or.inl ⟨Fail.fuel, rfl⟩
          | fuel + 1 =>
              simp only [soapLoop]
              by_cases hgg : (gH && gB) = true
              · rw [if_pos hgg]
                exact Or.inr ⟨(hdr, bdy, op, mt), XTree.elem nm a kids :: cs',
                  by simp, hhb, rfl⟩
              · rw [if_neg hgg]
                have hshape : flatL (XTree.elem nm a kids :: cs') ++
                    Tok.endE "Envelope" :: trailing =
                    Tok.startE nm a :: (flatL kids ++ Tok.endE nm ::
                      (flatL cs' ++ Tok.endE "Envelope" :: trailing)) := by
                  simp [flatL, flat]
                rw [hshape]
                have hge : getNextElement true (Tok.startE nm a ::
                    (flatL kids ++ Tok.endE nm ::
                      (flatL cs' ++ Tok.endE "Envelope" :: trailing))) =
                    Except.ok (Tok.startE nm a, flatL kids ++ Tok.endE nm ::
                      (flatL cs' ++ Tok.endE "Envelope" :: trailing)) := rfl
                rw [hge]
                simp only [res_ok_bind]
                rcases hnm with hnm | hnm
                · subst hnm
                  rw [if_pos rfl]
                  cases gH with
                  | true => exact Or.inl ⟨Fail.err Err.multipleHeaders,
                      by rw [if_pos rfl]; rfl⟩
                  | false =>
                      rw [if_neg (by simp)]
                      have hdup' : (true = true ∧ 1 ≤ countName "Header" cs') ∨
                          (gB = true ∧ 1 ≤ countName "Body" cs') ∨
                          2 ≤ countName "Header" cs' ∨
                          2 ≤ countName "Body" cs' := by
                        rcases hdup with ⟨hgh, _⟩ | ⟨hgb, hc⟩ | hc | hc
                        · simp at hgh
                        · exact Or.inr (Or.inl ⟨hgb, by simpa [countName] using hc⟩)
                        · simp [countName] at hc
                          exact Or.inl ⟨rfl, by omega⟩
                        · refine Or.inr (Or.inr (Or.inr ?_))
                          simpa [countName] using hc
                      rcases processSoapElement_consume glob kids "Header"
                          (flatL cs' ++ Tok.endE "Envelope" :: trailing) fuel "Header"
                          a (some glob.soapRequestHeader)
                          glob.soapRequestHeader.jsonType with ⟨f, hf⟩ | ⟨hv, hok⟩
                      · rw [hf]
                        exact Or.inl ⟨f, rfl⟩
                      · rw [hok]
                        simp only [res_ok_bind]
                        exact ih hhb' fuel true gB _ bdy op mt trailing hdup'
                · subst hnm
                  rw [if_neg (by decide)]
                  rw [if_pos rfl]
                  cases gB with
                  | true => exact Or.inl ⟨Fail.err Err.multipleBodies,
                      by rw [if_pos rfl]; rfl⟩
                  | false =>
                      rw [if_neg (by simp)]
                      have hdup' : (gH = true ∧ 1 ≤ countName "Header" cs') ∨
                          (true = true ∧ 1 ≤ countName "Body" cs') ∨
                          2 ≤ countName "Header" cs' ∨
                          2 ≤ countName "Body" cs' := by
                        rcases hdup with ⟨hgh, hc⟩ | ⟨hgb, _⟩ | hc | hc
                        · exact Or.inl ⟨hgh, by simpa [countName] using hc⟩
                        · simp at hgb
                        · refine Or.inr (Or.inr (Or.inl ?_))
                          simpa [countName] using hc
                        · simp [countName] at hc
                          exact Or.inr (Or.inl ⟨rfl, by omega⟩)
                      rcases getNextStart_consume "Body" kids
                          (flatL cs' ++ Tok.endE "Envelope" :: trailing) with
                        ⟨f, hf⟩ | ⟨anm, aa, akids, kids', hok⟩
                      · rw [hf]
                        exact Or.inl ⟨f, rfl⟩
                      · rw [hok]
                        simp only [res_ok_bind]
                        split
                        next => exact Or.inl ⟨_, rfl⟩
                        next opd hop =>
                            rcases processSoapElement_consume glob akids anm
                                (flatL kids' ++ Tok.endE "Body" ::
                                  (flatL cs' ++ Tok.endE "Envelope" :: trailing))
                                fuel anm aa (resolve glob.reg opd.requestTypeName)
                                opd.bodyType with ⟨f, hf2⟩ | ⟨bv, hok2⟩
                            · rw [hf2]
                              exact Or.inl ⟨f, rfl⟩
                            · rw [hok2]
                              simp only [res_ok_bind]
                              rcases getNextEnd_consume "Body" kids'
                                  (flatL cs' ++ Tok.endE "Envelope" :: trailing) with
                                ⟨f, hf3⟩ | hok3
                              · rw [hf3]
                                exact Or.inl ⟨f, rfl⟩
                              · rw [hok3]
                                simp only [res_ok_bind]
                                exact ih hhb' fuel gH true hdr _ (some opd)
                                  opd.requestType trailing hdup'

/-- C10: an envelope whose direct children are Header/Body elements with
more than one Header or more than one Body never yields JSON output, and
the dedicated guards produce the multiple-headers / multiple-bodies errors
on concrete duplicate inputs. -/
theorem multiple_headers_bodies_error (glob : Globals) (cs : List XTree)
    (hcs : ∀ t ∈ cs, isHB t = true)
    (hdup : 2 ≤ countName "Header" cs ∨ 2 ≤ countName "Body" cs)
    (fuel : Nat) (envAttrs : List XAttr) (trailing : List Tok)
    (r : SoapJsonMsg × Option OpDescriptor) :
    (SOAP2JSON glob fuel (Tok.startE "Envelope" envAttrs ::
        (flatL cs ++ Tok.endE "Envelope" :: trailing)) ≠ Except.ok r) ∧
    SOAP2JSON c7Glob 10 c10TwoHeaders =
      Except.error (Fail.err Err.multipleHeaders) ∧
    SOAP2JSON c7Glob 10 c10TwoBodies =
      Except.error (Fail.err Err.multipleBodies) := by
  refine ⟨?_, rfl, rfl⟩
  intro hok
  have hge : getNextElement true (Tok.startE "Envelope" envAttrs ::
      (flatL cs ++ Tok.endE "Envelope" :: trailing)) =
      Except.ok (Tok.startE "Envelope" envAttrs,
        flatL cs ++ Tok.endE "Envelope" :: trailing) := rfl
  simp only [SOAP2JSON, hge, res_ok_bind] at hok
  rw [if_neg (by decide)] at hok
  rcases soapLoop_dup glob cs hcs fuel false false none none none "" trailing
      (Or.inr (Or.inr hdup)) with ⟨f, hf⟩ | ⟨out, cs', hne, hhb', hok2⟩
  · rw [hf] at hok
    simp [res_error_bind] at hok
  · rw [hok2] at hok
    simp only [res_ok_bind] at hok
    cases cs' with
    | nil => exact hne rfl
    | cons t cs'' =>
        cases t with
        | text s =>
            have := hhb' (XTree.text s) (by simp)
            simp [isHB] at this
        | elem nm2 a2 kids2 =>
            have hshape : flatL (XTree.elem nm2 a2 kids2 :: cs'') ++
                Tok.endE "Envelope" :: trailing =
                Tok.startE nm2 a2 :: ((flatL kids2 ++ [Tok.endE nm2]) ++
                  (flatL cs'' ++ Tok.endE "Envelope" :: trailing)) := by
              simp [flatL, flat]
            rw [hshape] at hok
            have hge2 : getNextElement false (Tok.startE nm2 a2 ::
                ((flatL kids2 ++ [Tok.endE nm2]) ++
                  (flatL cs'' ++ Tok.endE "Envelope" :: trailing))) =
                Except.error (Fail.err Err.unexpectedWantedEnd) := rfl
            rw [hge2] at hok
            simp [res_error_bind] at hok

/-- Witness for C10: a concrete envelope with two Header children and one
Body child never produces JSON output. -/
theorem multiple_headers_bodies_error_witness :
    (∀ t ∈ c10Trees, isHB t = true) ∧
    2 ≤ countName "Header" c10Trees ∧
    SOAP2JSON c7Glob 10 (Tok.startE "Envelope" [] ::
        (flatL c10Trees ++ Tok.endE "Envelope" :: [])) ≠
      Except.ok (c6Msg, none) := by
  refine ⟨?_, ?_, ?_⟩
  · decide
  · decide
  · exact (multiple_headers_bodies_error c7Glob c10Trees (by decide)
      (Or.inl (by decide)) 10 [] [] (c6Msg, none)).1

--

-- C5 (strict mode: leftover JSON keys)

--

lemma goodRes_bind {α β : Type} (x : Res α) (f : α → Res β)
    (hx : goodRes x) (hf : ∀ a, goodRes (f a)) : goodRes (x >>= f) := by
  cases x with
  | ok a => exact hf a
  | error e => exact hx

lemma goodRes_wrap {α : Type} (ctx : String) (x : Res α)
    (hx : goodRes x) : goodRes (wrapRes ctx x) := by
  cases x with
  | ok a => trivial
  | error f =>
      cases f with
      | err e => exact hx
      | crash s => trivial
      | fuel => trivial

lemma toString_good (v : Json) : goodRes (toString v) := by
  cases v <;> trivial

lemma processJsonChardata_good (v : Json) : goodRes (processJsonChardata v) := by
  cases v <;> trivial

lemma resolveT_good (reg : Registry) (n : String) : goodRes (resolveT reg n) := by
  unfold resolveT
  cases resolve reg n <;> trivial

lemma isCharData_good (reg : Registry) (e : EwsJsonElement) :
    goodRes (isCharData reg e) := by
  unfold isCharData
  cases e.types with
  | some _ => trivial
  | none =>
      cases e.singleType with
      | none => trivial
      | some st =>
          refine goodRes_bind _ _ (resolveT_good reg st.typeName) (fun t => ?_)
          trivial

lemma syncHook_good (e : EwsJsonElement) (m : JsonMap) :
    goodRes (syncFolderHierarchyHook e m) := by
  unfold syncFolderHierarchyHook
  split
  · split <;> trivial
  · trivial

lemma runChoiceHook_good (h : ChoiceHookId) (e : EwsJsonElement) (m : JsonMap) :
    goodRes (runChoiceHook h e m) := by
  cases h
  exact syncHook_good e m

lemma extraCheck_good {α : Type} (tn : String) (m3 : JsonMap) (okv : α) :
    goodRes (if m3.isEmpty then (Except.ok okv : Res α)
      else throwErr (Err.extraElements tn (mkeys m3))) := by
  cases m3 with
  | nil => trivial
  | cons a as => simp [goodRes, goodFail, goodErr, mkeys, throwErr, List.isEmpty]

lemma resolveChoice_good (e : EwsJsonElement) (m : JsonMap) :
    goodRes (resolveChoice e m) := by
  unfold resolveChoice
  split
  · trivial
  · split
    · exact runChoiceHook_good _ _ _
    · split <;> first | trivial | (split <;> trivial)

lemma consumeAttrs_good (l : List AttrDesc) (m : JsonMap) :
    goodRes (consumeAttrs l m) := by
  induction l generalizing m with
  | nil => trivial
  | cons a rest ih =>
      unfold consumeAttrs
      split
      · refine goodRes_bind _ _ (goodRes_wrap _ _ (toString_good _)) (fun s => ?_)
        refine goodRes_bind _ _ (ih _) (fun p => ?_)
        trivial
      · exact ih m

lemma enumListItemType_good (g : Globals) (je : EwsJsonElement) :
    goodRes (enumListItemType g je) := by
  unfold enumListItemType
  split
  · trivial
  · refine goodRes_bind _ _ (resolveT_good _ _) (fun t => ?_)
    split
    · split
      · trivial
      · split <;> trivial
    · trivial

lemma emitEnumList_good (st : EwsJsonTypeRef) (lt : EwsType) (v : Json) :
    goodRes (emitEnumList st lt v) := by
  unfold emitEnumList
  refine goodRes_bind _ _ (goodRes_wrap _ _ (toString_good _)) (fun s => ?_)
  split <;> trivial

lemma listChildDesc_good (g : Globals) (e : EwsJsonElement) :
    goodRes (listChildDesc g e) := by
  unfold listChildDesc
  split
  · refine goodRes_bind _ _ (resolveT_good _ _) (fun t => ?_)
    split
    · split <;> trivial
    · split <;> trivial
  · split <;> trivial

lemma mkeys_cons_ne (a : String × Json) (m : JsonMap) : mkeys (a :: m) ≠ [] := by
  simp [mkeys]

/-- Every error that the JSON→SOAP recursion returns carries, at every
extra-elements position, a nonempty leftover key list: the strictness
error never fires for an object with no unconsumed keys. -/
lemma pjRun_good (g : Globals) : ∀ (fuel : Nat) (c : PJCall), goodRes (pjRun g fuel c) := by
  intro fuel
  induction fuel with
  | zero => intro c; trivial
  | succ fuel ih =>
      intro c
      cases c with
      | top v e =>
          cases v
          case obj m => exact goodRes_wrap _ _ (ih (PJCall.objc m e))
          case arr l => exact goodRes_wrap _ _ (ih (PJCall.listc l e))
          case null => trivial
          all_goals
            simp only [pjRun]
            refine goodRes_bind _ _ (isCharData_good g.reg e) (fun cd => ?_)
            split
            · trivial
            · split
              · trivial
              · refine goodRes_bind _ _ (goodRes_wrap _ _ (toString_good _)) (fun text => ?_)
                refine goodRes_bind _ _ (resolveT_good _ _) (fun t => ?_)
                split
                · split
                  · trivial
                  · split
                    · trivial
                    · split <;> trivial
                · trivial
      | objc m e =>
          simp only [pjRun]
          refine goodRes_bind _ _ (resolveChoice_good e m) (fun jtyp => ?_)
          refine goodRes_bind _ _ (resolveT_good _ _) (fun typ => ?_)
          split
          · trivial
          · refine goodRes_bind _ _ (consumeAttrs_good _ _) (fun p => ?_)
            split
            · split
              · refine goodRes_bind _ _ (goodRes_wrap _ _ (processJsonChardata_good _))
                  (fun evs => ?_)
                refine goodRes_bind _ _ (by trivial) (fun y => extraCheck_good _ _ _)
              · refine goodRes_bind _ _ (by trivial) (fun y => extraCheck_good _ _ _)
            · split
              · split
                · refine goodRes_bind _ _ (by trivial) (fun y => extraCheck_good _ _ _)
                · refine goodRes_bind _ _ (by trivial) (fun y => extraCheck_good _ _ _)
                · split
                  · refine goodRes_bind _ _ (by trivial) (fun y => extraCheck_good _ _ _)
                  · refine goodRes_bind _ _ (ih _) (fun d => ?_)
                    refine goodRes_bind _ _ (by trivial) (fun y => extraCheck_good _ _ _)
              · refine goodRes_bind _ _ (ih _) (fun y => extraCheck_good _ _ _)
      | listc l e =>
          simp only [pjRun]
          refine goodRes_bind _ _ (listChildDesc_good g e) (fun p => ?_)
          refine goodRes_bind _ _ (ih _) (fun q => ?_)
          split <;> trivial
      | items l cd =>
          simp only [pjRun]
          split
          · trivial
          · exact ih _
          · refine goodRes_bind _ _ (isCharData_good g.reg cd) (fun isCd => ?_)
            split
            · split
              · refine goodRes_bind _ _ (by trivial) (fun y => ?_)
                refine goodRes_bind _ _ (ih _) (fun d => ?_)
                trivial
              · refine goodRes_bind _ _ (goodRes_wrap _ _ (toString_good _))
                  (fun text => ?_)
                refine goodRes_bind _ _ (by trivial) (fun y => ?_)
                refine goodRes_bind _ _ (ih _) (fun d => ?_)
                trivial
            · split
              · refine goodRes_bind _ _ (ih _) (fun d => ?_)
                refine goodRes_bind _ _ (by trivial) (fun y => ?_)
                refine goodRes_bind _ _ (ih _) (fun d2 => ?_)
                trivial
              · refine goodRes_bind _ _ (by trivial) (fun y => ?_)
                refine goodRes_bind _ _ (ih _) (fun d => ?_)
                trivial
      | elems jes m =>
          simp only [pjRun]
          split
          · trivial
          · split
            · exact ih _
            · refine goodRes_bind _ _ (enumListItemType_good g _) (fun itemTy => ?_)
              split
              · split
                · refine goodRes_bind _ _ (emitEnumList_good _ _ _) (fun evs => ?_)
                  refine goodRes_bind _ _ (ih _) (fun d => ?_)
                  trivial
                · refine goodRes_bind _ _ (by trivial) (fun evs => ?_)
                  refine goodRes_bind _ _ (ih _) (fun d => ?_)
                  trivial
              · refine goodRes_bind _ _ (ih _) (fun d => ?_)
                refine goodRes_bind _ _ (by trivial) (fun evs => ?_)
                refine goodRes_bind _ _ (ih _) (fun d2 => ?_)
                trivial

/-- C5: after the discriminator, attributes, declared children and
droppable extras have been consumed, a nonempty residual makes
processJsonObject fail with an error naming exactly the leftover keys and
the type name; an empty residual passes the check, and (by `pjRun_good`)
the strictness error can never carry an empty leftover list. -/
theorem leftover_keys_strictness (g : Globals) (m : JsonMap) (e : EwsJsonElement)
    (jtyp : EwsJsonTypeRef) (typ : EwsType) (fuel : Nat)
    (attrs : List (String × String)) (m1 : JsonMap)
    (evs : List XmlEvt) (m2 : JsonMap)
    (hjc : resolveChoice e m = Except.ok jtyp)
    (hty : resolve g.reg jtyp.typeName = some typ)
    (hsimple : typ.isSimple = false)
    (hlist : typ.jsonListName = "")
    (hca : consumeAttrs typ.attributes (mdel m "__type") = Except.ok (attrs, m1))
    (helems : pjRun g fuel (PJCall.elems typ.jsonElementList m1) = Except.ok (evs, m2)) :
    (typ.jsonExtra.foldl mdel m2 ≠ [] →
      pjRun g (fuel + 1) (PJCall.objc m e) =
        Except.error (Fail.err
          (Err.extraElements typ.name (mkeys (typ.jsonExtra.foldl mdel m2))))) ∧
    (typ.jsonExtra.foldl mdel m2 = [] →
      pjRun g (fuel + 1) (PJCall.objc m e) =
        Except.ok ([XmlEvt.startE jtyp.xmlTag attrs] ++ evs ++
          [XmlEvt.endE jtyp.xmlTag], [])) ∧
    (∀ (fuel' : Nat) (c : PJCall) (tn : String) (ks : List String) (ctxs : List String),
      pjRun g fuel' c =
        Except.error (Fail.err (ctxs.foldr Err.wrap (Err.extraElements tn ks))) →
      ks ≠ []) := by
  have hrun : ∀ m3 : JsonMap, pjRun g (fuel + 1) (PJCall.objc m e) =
      (if m3.isEmpty then
        Except.ok ([XmlEvt.startE jtyp.xmlTag attrs] ++ evs ++
          [XmlEvt.endE jtyp.xmlTag], ([] : JsonMap))
      else throwErr (Err.extraElements typ.name (mkeys m3))) →
      True := fun _ _ => trivial
  refine ⟨?_, ?_, ?_⟩
  · intro hne
    simp only [pjRun, hjc, res_ok_bind, resolveT, hty, hca, helems, hsimple,
      hlist, Bool.false_and, Bool.false_eq_true, if_false, bne_self_eq_false]
    have : (typ.jsonExtra.foldl mdel m2).isEmpty = false := by
      cases h3 : typ.jsonExtra.foldl mdel m2 with
      | nil => exact absurd h3 hne
      | cons a as => rfl
    simp [this, throwErr]
  · intro hemp
    simp only [pjRun, hjc, res_ok_bind, resolveT, hty, hca, helems, hsimple,
      hlist, Bool.false_and, Bool.false_eq_true, if_false, bne_self_eq_false]
    simp [hemp]
  · intro fuel' c tn ks ctxs hrun'
    have hg := pjRun_good g fuel' c
    rw [hrun'] at hg
    have : goodErr (ctxs.foldr Err.wrap (Err.extraElements tn ks)) := hg
    clear hg hrun'
    induction ctxs with
    | nil => exact this
    | cons cx rest ih => exact ih this

/-- Witness for C5: an object with one undeclared key fails with the
strictness error naming that key and the type. -/
theorem leftover_keys_strictness_witness :
    pjRun c5G 2 (PJCall.objc [("Rogue", Json.str "x")] c5E) =
      Except.error (Fail.err (Err.extraElements "C5T" ["Rogue"])) := by
  have h := (leftover_keys_strictness c5G [("Rogue", Json.str "x")] c5E
      { typeName := "C5T", xmlTag := "t:C5" } c5T 1 [] [("Rogue", Json.str "x")]
      [] [("Rogue", Json.str "x")] rfl rfl rfl rfl rfl rfl).1
      (by simp [c5T, mdel])
  simpa [c5T, mkeys, mdel] using h

--

-- C2 (response type-hint injection / stamping)

--

/-- Counterexample to C2: the type TX of the declared child X does not
declare Items anywhere, yet a present child object without an Items key
makes the stamping walk (and hence JSON2SOAP) return an error — the code
never consults the registry for whether Items is declared. -/
theorem items_absent_error_counterexample :
    stampTX.typeByElementName.map Prod.fst = [] ∧
    stampBody stampGlobals stampOp [("X", Json.obj [])] =
      Except.error (Fail.err (Err.cannotFindItems "X")) ∧
    JSON2SOAP stampGlobals 10 { body := some [("X", Json.obj [])] } stampOp =
      Except.error (Fail.err (Err.cannotFindItems "X")) :=
  ⟨rfl, rfl, rfl⟩

/-- C2 amended: the stamping walk skips absent, null and non-object
children without error; a present child object lacking Items is always an
error (whether or not Items is declared on the child's type); a present
child object with an Items array has every item stamped with
`__type = <responseJsonName>Message`; and stampBody walks exactly the
child element names declared on the operation's response type. -/
theorem response_stamping_amended (rn nm : String) (body : JsonMap) :
    (mget body nm = none → stampChild rn nm body = Except.ok body) ∧
    (mget body nm = some Json.null → stampChild rn nm body = Except.ok body) ∧
    (∀ v, mget body nm = some v → (∀ cm, v ≠ Json.obj cm) → v ≠ Json.null →
        stampChild rn nm body = Except.ok body) ∧
    (∀ cm, mget body nm = some (Json.obj cm) → mget cm "Items" = none →
        stampChild rn nm body = Except.error (Fail.err (Err.cannotFindItems nm))) ∧
    (∀ cm items, mget body nm = some (Json.obj cm) →
        mget cm "Items" = some (Json.arr items) →
        stampChild rn nm body =
          (stampItems rn items).map
            (fun stamped => mset body nm (Json.obj (mset cm "Items" (Json.arr stamped))))) ∧
    (∀ ims : List JsonMap,
        stampItems rn (ims.map Json.obj) =
          Except.ok (ims.map (fun im => Json.obj (mset im "__type" (Json.str rn))))) ∧
    (∀ (g : Globals) (op : OpDescriptor) (st : EwsJsonTypeRef) (t : EwsType) (b : JsonMap),
        op.response.singleType = some st →
        resolve g.reg st.typeName = some t →
        stampBody g op b =
          stampChildren (op.response.jsonName ++ "Message")
            (t.typeByElementName.map Prod.fst) b) := by
  refine ⟨?_, ?_, ?_, ?_, ?_, ?_, ?_⟩
  · intro h; simp [stampChild, h]
  · intro h; simp [stampChild, h]
  · intro v h hobj hnull
    cases v with
    | obj cm => exact absurd rfl (hobj cm)
    | null => exact absurd rfl hnull
    | bool b => simp [stampChild, h]
    | num s => simp [stampChild, h]
    | str s => simp [stampChild, h]
    | int n => simp [stampChild, h]
    | arr l => simp [stampChild, h]
  · intro cm h hitems; simp [stampChild, h, hitems, throwErr]
  · intro cm items h hitems
    simp only [stampChild, h, hitems]
    cases hs : stampItems rn items with
    | ok stamped => simp [hs, res_ok_bind, Except.map]
    | error f => simp [hs, res_error_bind, Except.map]
  · intro ims
    induction ims with
    | nil => rfl
    | cons im rest ih => simp [stampItems, ih, res_ok_bind]
  · intro g op st t b hst ht
    simp [stampBody, hst, resolveT, ht, res_ok_bind]

/-- Witness for C2 (amended): a concrete Items array of two objects is
stamped item by item. -/
theorem response_stamping_amended_witness :
    stampChild "FindItemResponseMessage" "X"
        [("X", Json.obj [("Items",
          Json.arr [Json.obj [("Id", Json.str "a")], Json.obj []])])] =
      Except.ok [("X", Json.obj [("Items", Json.arr
        [Json.obj [("Id", Json.str "a"), ("__type", Json.str "FindItemResponseMessage")],
         Json.obj [("__type", Json.str "FindItemResponseMessage")]])])] := by
  have h := (response_stamping_amended "FindItemResponseMessage" "X"
      [("X", Json.obj [("Items",
        Json.arr [Json.obj [("Id", Json.str "a")], Json.obj []])])]).2.2.2.2.1
      [("Items", Json.arr [Json.obj [("Id", Json.str "a")], Json.obj []])]
      [Json.obj [("Id", Json.str "a")], Json.obj []] rfl rfl
  exact h.trans rfl

/-- Witness for C9: label list with a duplicate shows the first index wins,
and an unlisted value passes through raw. -/
theorem enum_chardata_conversion_witness :
    convertSimpleToJson
        { name := "E", isSimple := true, simpleType := SimpleKind.enum,
          enumValues := ["None", "A", "A", "B"] } "A" = Json.int 1 ∧
    convertSimpleToJson
        { name := "E", isSimple := true, simpleType := SimpleKind.enum,
          enumValues := ["None", "A", "A", "B"] } "Zed" = Json.str "Zed" :=
  ⟨((enum_chardata_conversion
      { name := "E", isSimple := true, simpleType := SimpleKind.enum,
        enumValues := ["None", "A", "A", "B"] } "A" rfl).1 1 (by decide)).1,
   (enum_chardata_conversion
      { name := "E", isSimple := true, simpleType := SimpleKind.enum,
        enumValues := ["None", "A", "A", "B"] } "Zed" rfl).2 (by decide)⟩

end Ews
